import Mathlib

/-!
Verification development for the `plugin-typescript` package of the berry
repository (`packages/plugin-typescript/sources/index.ts`).

The plugin registers four hooks:
* `afterWorkspaceDependencyAddition` — adds a companion `@types/...`
  development dependency when an original dependency without bundled
  declarations is added;
* `afterWorkspaceDependencyRemoval` — removes the companion entry from every
  dependency-collection kind of the workspace;
* `afterAllInstalled` — synchronizes each workspace's `tsconfig.json`
  `references` list with its local workspace dependency edges;
* `beforeWorkspacePacking` — promotes `publishConfig.typings` / `types`.

External collaborators (`@yarnpkg/core` structUtils and Manifest model, the
resolver, `semver`, the filesystem) are modelled as explicit data: hashes
become the underlying tuples (the real hashes are injective digests of them),
JS `Map`s become association lists with JS `Map` get/set/delete semantics, a
resolver query that may reject becomes an `Option`-returning function, and a
thrown exception surfaces as `Except.error`.
-/

namespace Berry

/-- Identity key of a package: scope (without the `@`, `none` if unscoped)
paired with the name.  Stands for `identHash`, which in yarn is an injective
digest of exactly these two components. -/
abbrev IdentKey := Option String × String

/-- A yarn `Descriptor`: an ident (scope, name) plus a range string. -/
structure Desc where
  scope : Option String
  name : String
  range : String
deriving DecidableEq, Repr

/-- `descriptor.identHash`: determined by scope and name. -/
def identHash (d : Desc) : IdentKey := (d.scope, d.name)

/-- `descriptor.descriptorHash`: determined by scope, name and range. -/
def descriptorHash (d : Desc) : Option String × String × String :=
  (d.scope, d.name, d.range)

/-- `getTypesName` (index.ts lines 11–15): flatten a scoped ident
`@scope/name` to `scope__name`, keep an unscoped name as is. -/
def getTypesName (d : Desc) : String :=
  match d.scope with
  | some scope => scope ++ "__" ++ d.name
  | none => d.name

/-- A dependency collection: a JS `Map` from ident hash to descriptor,
modelled as an association list (first match wins, `set` updates in place or
appends, `delete` removes the entry). -/
abbrev DepMap := List (IdentKey × Desc)

/-- `Map.get`. -/
def mapGet (m : DepMap) (k : IdentKey) : Option Desc :=
  match m with
  | [] => none
  | (k0, v) :: rest => if k0 = k then some v else mapGet rest k

/-- `Map.set`: replace the value in place when the key is present, append
otherwise. -/
def mapSet (m : DepMap) (k : IdentKey) (v : Desc) : DepMap :=
  match m with
  | [] => [(k, v)]
  | (k0, v0) :: rest => if k0 = k then (k, v) :: rest else (k0, v0) :: mapSet rest k v

/-- `Map.delete`. -/
def mapDelete (m : DepMap) (k : IdentKey) : DepMap :=
  m.filter (fun e => e.1 ≠ k)

/-- The dependency-collection kinds of a manifest. -/
inductive DepKind
  | regular
  | development
  | peer
  | optionalKind
deriving DecidableEq, Repr

/-- A workspace manifest: one dependency collection per kind. -/
structure Manifest where
  dependencies : DepMap
  devDependencies : DepMap
  peerDependencies : DepMap
  optionalDependencies : DepMap
deriving DecidableEq, Repr

/-- Field access `manifest[type]`. -/
def Manifest.getKind (m : Manifest) : DepKind → DepMap
  | .regular => m.dependencies
  | .development => m.devDependencies
  | .peer => m.peerDependencies
  | .optionalKind => m.optionalDependencies

/-- Functional update of the collection of one kind. -/
def Manifest.setKind (m : Manifest) : DepKind → DepMap → Manifest
  | .regular, x => { m with dependencies := x }
  | .development, x => { m with devDependencies := x }
  | .peer, x => { m with peerDependencies := x }
  | .optionalKind, x => { m with optionalDependencies := x }

/-- Modelled from the spec: `Manifest.allDependencies` lives in
`@yarnpkg/core`, which is part of the berry repository but not under the
sources given here; the spec's data model lists the kinds as "regular,
development, peer, optional" (sections 3 and 6), so the iteration order of
the companion scans and deletions is over these four kinds. -/
def allDependencies : List DepKind :=
  [.regular, .development, .peer, .optionalKind]

/-- A workspace: root directory, resolved dependency map (the
`workspace.dependencies` map of ident hash to descriptor, in iteration
order), and the manifest. -/
structure Workspace where
  cwd : String
  dependencies : List (IdentKey × Desc)
  manifest : Manifest
deriving DecidableEq, Repr

/-! ### The dependency addition hook -/

/-- External collaborators of `afterWorkspaceDependencyAddition`:
`hasDefinitelyTyped` (the external declarations predicate),
`resolver.getCandidates` (`none` models a rejected promise, `some l` the
candidate reference strings), `structUtils.parseRange(...).selector`,
`semver.validRange` (as a Boolean), and `semver.coerce` retaining the only
field the code reads, `.major` (`none` models a `null` coercion). -/
structure AddExt where
  hasDefinitelyTyped : Desc → Bool
  getCandidates : Desc → Option (List String)
  parseRangeSelector : String → String
  validRange : String → Bool
  coerce : String → Option Nat

/-- The companion descriptor
`structUtils.makeDescriptor(structUtils.makeIdent('types', typesName), coercedRange)`
with `coercedRange` = `` `${Modifier.CARET}${semverRange.major}` ``.
Modelled from the spec for the constant `suggestUtils.Modifier.CARET` (the
plugin-essentials package is not under the sources given here; the spec says
"a caret range fixed at the coerced major version"). -/
def companionDescriptor (d : Desc) (major : Nat) : Desc :=
  ⟨some "types", getTypesName d, "^" ++ toString major⟩

/-- Lines 43–48: the selector used for coercion.  If the parsed selector of
the original range is a valid semver range it is used directly; otherwise the
resolver is queried for the original descriptor and the first candidate's
parsed selector is used.  A rejected query (`none`) propagates as a thrown
error; an empty candidate list makes `originalCandidates[0].reference` throw
a `TypeError`, so it is an error as well. -/
def chosenSelector (ext : AddExt) (d : Desc) : Except Unit String :=
  let range := ext.parseRangeSelector d.range
  if ext.validRange range then .ok range
  else
    match ext.getCandidates d with
    | none => .error ()
    | some [] => .error ()
    | some (c :: _) => .ok (ext.parseRangeSelector c)

/-- Lines 65–73: the entries of `workspace.manifest[type]` under the
companion ident, collected over `Manifest.allDependencies`. -/
def collectAtTypes (m : Manifest) (atIdent : IdentKey) : List (DepKind × Desc) :=
  allDependencies.filterMap
    (fun t => (mapGet (m.getKind t) atIdent).map (fun dep => (t, dep)))

/-- Lines 57–80, body of the `miscUtils.mapAndFind` scan: a workspace is
skipped unless its regular or development collection holds the original
descriptor with the identical descriptor hash, and unless it holds at least
one entry under the companion ident; otherwise those companion entries are
returned. -/
def suggestFor (d : Desc) (atIdent : IdentKey) (w : Workspace) : Option (List (DepKind × Desc)) :=
  let regularDependencyHash := (mapGet w.manifest.dependencies (identHash d)).map descriptorHash
  let devDependencyHash := (mapGet w.manifest.devDependencies (identHash d)).map descriptorHash
  if regularDependencyHash ≠ some (descriptorHash d) ∧ devDependencyHash ≠ some (descriptorHash d) then
    none
  else
    let atTypesDependencies := collectAtTypes w.manifest atIdent
    if atTypesDependencies.isEmpty then none
    else some atTypesDependencies

/-- Lines 83–85: `workspace.manifest[dependencyType].set(atTypesDescriptor.identHash, atTypesDescriptor)`
for each found entry (the loop variable shadows the outer descriptor, so the
sibling's stored descriptor is set, keyed by its own ident hash). -/
def applyEntries (w : Workspace) (entries : List (DepKind × Desc)) : Workspace :=
  entries.foldl
    (fun w e =>
      { w with manifest := w.manifest.setKind e.1 (mapSet (w.manifest.getKind e.1) (identHash e.2) e.2) })
    w

/-- Result of one run of the addition hook: the outcome (`error` models an
exception propagating to the caller, `ok` the resulting workspace list) and
the descriptors passed to `resolver.getCandidates`, in call order. -/
structure AddResult where
  outcome : Except Unit (List Workspace)
  queries : List Desc
deriving Repr

/-- Line 97: `workspace.manifest[suggestUtils.Target.DEVELOPMENT].set(atTypesDescriptor.identHash, atTypesDescriptor)`
(modelled from the spec for `suggestUtils.Target.DEVELOPMENT`: the spec pins
the insertion to the development collection). -/
def setDevCompanion (w : Workspace) (atTypes : Desc) : Workspace :=
  { w with
      manifest := w.manifest.setKind .development
          (mapSet (w.manifest.getKind .development) (identHash atTypes) atTypes) }

/-- Lines 57–98: the sibling-propagation scan over `project.workspaces`
(`miscUtils.mapAndFind`), and on no match the feasibility probe of the
companion descriptor guarding an insertion into the development
collection. -/
def reconcileCompanion (ext : AddExt) (before : List Workspace) (w : Workspace)
    (after : List Workspace) (d : Desc) (atTypes : Desc) (tagQueries : List Desc) : AddResult :=
  match (before ++ w :: after).findSome? (suggestFor d (identHash atTypes)) with
  | some entries => ⟨.ok (before ++ applyEntries w entries :: after), tagQueries⟩
  | none =>
    match ext.getCandidates atTypes with
    | none => ⟨.ok (before ++ w :: after), tagQueries ++ [atTypes]⟩
    | some [] => ⟨.ok (before ++ w :: after), tagQueries ++ [atTypes]⟩
    | some (_ :: _) => ⟨.ok (before ++ setDevCompanion w atTypes :: after), tagQueries ++ [atTypes]⟩

/-- `afterWorkspaceDependencyAddition` (index.ts lines 17–99).  The project's
workspace list is `before ++ w :: after` with `w` the triggering workspace;
the hook mutates only `w`'s manifest.  Guards in source order: companion
scope, `hasDefinitelyTyped`, tag resolution, semver coercion; then the
reconciliation of the companion descriptor. -/
def afterWorkspaceDependencyAddition (ext : AddExt) (before : List Workspace) (w : Workspace)
    (after : List Workspace) (d : Desc) : AddResult :=
  if d.scope = some "types" then ⟨.ok (before ++ w :: after), []⟩
  else if ext.hasDefinitelyTyped d = false then ⟨.ok (before ++ w :: after), []⟩
  else
    let tagQueries : List Desc :=
      if ext.validRange (ext.parseRangeSelector d.range) then [] else [d]
    match chosenSelector ext d with
    | .error _ => ⟨.error (), tagQueries⟩
    | .ok range =>
      match ext.coerce range with
      | none => ⟨.ok (before ++ w :: after), tagQueries⟩
      | some major =>
        reconcileCompanion ext before w after d (companionDescriptor d major) tagQueries

/-! ### The dependency removal hook -/

/-- Lines 113–120, one iteration of the removal loop: skip a kind in which
the companion ident is absent, delete it otherwise. -/
def removeOne (ident : IdentKey) (w : Workspace) (t : DepKind) : Workspace :=
  match mapGet (w.manifest.getKind t) ident with
  | none => w
  | some _ => { w with manifest := w.manifest.setKind t (mapDelete (w.manifest.getKind t) ident) }

/-- `afterWorkspaceDependencyRemoval` (index.ts lines 101–121): skip
companion-scope descriptors, then delete the companion ident from each
dependency-collection kind in which it is present. -/
def afterWorkspaceDependencyRemoval (w : Workspace) (d : Desc) : Workspace :=
  if d.scope = some "types" then w
  else
    let typesName := getTypesName d
    let ident : IdentKey := (some "types", typesName)
    allDependencies.foldl (removeOne ident) w

/-! ### The reference synchronizer -/

/-- The shape of `tsconfig.json` as this plugin sees it: the optional
`references` list (each entry's `path` field) plus the rest of the parsed
document, opaque to the plugin and carried through unchanged. -/
structure TsConfig where
  references : Option (List String)
  other : String
deriving DecidableEq, Repr

/-- The filesystem: association of workspace root directory to the parsed
`tsconfig.json` at that root.  An absent entry models a file that is missing
or unparsable (`readJsonPromise` throws); a write prepends, so a later read
sees the newest content. -/
abbrev Fs := List (String × TsConfig)

/-- `xfs.readJsonPromise` at `ppath.join(cwd, 'tsconfig.json')`. -/
def fsRead (fs : Fs) (c : String) : Option TsConfig :=
  match fs with
  | [] => none
  | (c0, t) :: rest => if c0 = c then some t else fsRead rest c

/-- `xfs.writeJsonPromise` at `ppath.join(cwd, 'tsconfig.json')`. -/
def fsWrite (fs : Fs) (c : String) (t : TsConfig) : Fs := (c, t) :: fs

/-- External collaborators of the synchronizer, all from `@yarnpkg/core` and
`@yarnpkg/fslib`: `structUtils.isVirtualDescriptor`,
`structUtils.devirtualizeDescriptor`, `project.tryWorkspaceByIdent`
(returning the index of the found workspace in `project.workspaces`),
`workspace.accepts` for the workspace at a given index, and
`ppath.relative`. -/
structure SyncExt where
  isVirtual : Desc → Bool
  devirtualize : Desc → Desc
  tryWorkspaceByIdent : Desc → Option Nat
  accepts : Nat → String → Bool
  relative : String → String → String

/-- `tryWorkspaceByDescriptor` (index.ts lines 134–144): devirtualize a
virtual descriptor, look the ident up among the project workspaces, and keep
the result only if it accepts the descriptor's range. -/
def tryWorkspaceByDescriptor (ext : SyncExt) (d : Desc) : Option Nat :=
  let d := if ext.isVirtual d then ext.devirtualize d else d
  match ext.tryWorkspaceByIdent d with
  | none => none
  | some i => if ext.accepts i d.range then some i else none

/-- Lines 150–156: `referencedWorkspaces`, the `mapAndFilter` over
`workspace.dependencies` keeping, for each dependency that resolves to a
local workspace other than the current one (`===` on project members becomes
index equality), the depending workspace's root made relative to the current
root. -/
def referencedWorkspaces (ext : SyncExt) (workspaces : List Workspace) (wi : Nat)
    (w : Workspace) : List String :=
  w.dependencies.filterMap fun p =>
    match tryWorkspaceByDescriptor ext p.2 with
    | none => none
    | some j =>
      if j = wi then none
      else
        match workspaces[j]? with
        | none => none
        | some dw => some (ext.relative w.cwd dw.cwd)

/-- Lines 158–187, the per-workspace body of `afterAllInstalled`: read the
document (a failed read leaves `tsconfig` empty and marks it changed); if no
workspace is referenced, clear a present `references` field and mark
changed; otherwise rebuild `references` from the computed list, marking
changed when some computed path is not in the set of existing paths; write
only when marked changed.  Returns the filesystem and whether a write
happened. -/
def syncOne (ext : SyncExt) (workspaces : List Workspace) (fs : Fs) (wi : Nat)
    (w : Workspace) : Fs × Bool :=
  let refs := referencedWorkspaces ext workspaces wi w
  let firstRead := fsRead fs w.cwd
  let tsconfig0 : TsConfig := match firstRead with
    | none => ⟨none, ""⟩
    | some t => t
  let changed0 : Bool := match firstRead with
    | none => true
    | some _ => false
  let step : TsConfig × Bool :=
    if refs.isEmpty then
      if tsconfig0.references ≠ none then ({ tsconfig0 with references := none }, true)
      else (tsconfig0, changed0)
    else
      let oldReferences := tsconfig0.references.getD []
      let changed1 := changed0 || refs.any (fun p => !(oldReferences.contains p))
      ({ tsconfig0 with references := some refs }, changed1)
  if step.2 then (fsWrite fs w.cwd step.1, true) else (fs, false)

/-- The loop of `afterAllInstalled` over the tail `rest` of the workspace
list starting at index `i`, threading the filesystem and logging the root
directory of every workspace whose document was written. -/
def syncAll (ext : SyncExt) (workspaces : List Workspace) :
    Nat → List Workspace → Fs → Fs × List String
  | _, [], fs => (fs, [])
  | i, w :: rest, fs =>
    let one := syncOne ext workspaces fs i w
    let restResult := syncAll ext workspaces (i + 1) rest one.1
    (restResult.1, (if one.2 then [w.cwd] else []) ++ restResult.2)

/-- `afterAllInstalled` (index.ts lines 148–189): one synchronization pass
over `project.workspaces`. -/
def afterAllInstalled (ext : SyncExt) (workspaces : List Workspace) (fs : Fs) :
    Fs × List String :=
  syncAll ext workspaces 0 workspaces fs

/-- The claim's notion of the computed path set and the existing reference
list "differing in membership" (symmetric set difference non-empty), written
from the spec's words for comparison with what the code tests. -/
def refSetsDiffer (newRefs oldRefs : List String) : Bool :=
  newRefs.any (fun p => !(oldRefs.contains p)) || oldRefs.any (fun p => !(newRefs.contains p))

/-- One step of the propagation loop. -/
def applyOne (w : Workspace) (e : DepKind × Desc) : Workspace :=
  { w with manifest := w.manifest.setKind e.1 (mapSet (w.manifest.getKind e.1) (identHash e.2) e.2) }

/-- The hash-matching condition of the scan (regular or development
collection holds the original descriptor by identical descriptor hash). -/
def hashMatches (d : Desc) (w : Workspace) : Prop :=
  (mapGet w.manifest.dependencies (identHash d)).map descriptorHash = some (descriptorHash d) ∨
  (mapGet w.manifest.devDependencies (identHash d)).map descriptorHash = some (descriptorHash d)

/-- Well-formedness of a dependency collection: each entry is stored under
the ident hash of its own descriptor (the invariant yarn maintains). -/
def WfMap (m : DepMap) : Prop := ∀ e ∈ m, e.1 = identHash e.2

/-- Well-formedness of a workspace: every collection of every kind. -/
def WfWorkspace (w : Workspace) : Prop := ∀ t : DepKind, WfMap (w.manifest.getKind t)

/-- The per-workspace stability invariant: the document exists and its
reference list covers the computed paths (and is absent when there are
none). -/
def goodDoc (ext : SyncExt) (workspaces : List Workspace) (wi : Nat) (w : Workspace)
    (fs : Fs) : Prop :=
  ∃ t, fsRead fs w.cwd = some t ∧
    (match referencedWorkspaces ext workspaces wi w with
     | [] => t.references = none
     | refs => ∀ p ∈ refs, (t.references.getD []).contains p = true)

/-- Concrete instances for the C1 counterexample and witness. -/
def c1Ext : SyncExt :=
  ⟨fun _ => false, fun d => d, fun d => if d.name = "b" then some 1 else none,
   fun _ _ => true, fun _ q => q⟩

def c1W0 : Workspace := ⟨"a", [((none, "b"), ⟨none, "b", "1.0.0"⟩)], ⟨[], [], [], []⟩⟩

def c1W1 : Workspace := ⟨"b", [], ⟨[], [], [], []⟩⟩

def c1Fs : Fs := [("a", ⟨some ["b", "c"], ""⟩), ("b", ⟨none, ""⟩)]

/-- Concrete instances for the C2 counterexample and witness. -/
def c2Ext : AddExt :=
  ⟨fun _ => true, fun _ => none, fun r => r, fun _ => false, fun _ => none⟩

def c2Desc : Desc := ⟨none, "foo", "latest"⟩

def c2Ws : Workspace := ⟨"a", [], ⟨[], [], [], []⟩⟩

/-- Concrete instances for the C3 witness: a sibling workspace holds the
companion under its peer collection at range `^1.5`, tied to the identical
original descriptor. -/
def c3Ext : AddExt :=
  ⟨fun _ => true, fun _ => some [], fun r => r, fun r => r = "^2.0.0",
   fun r => if r = "^2.0.0" then some 2 else none⟩

def c3Desc : Desc := ⟨none, "foo", "^2.0.0"⟩

def c3W : Workspace := ⟨"a", [], ⟨[], [], [], []⟩⟩

def c3Sib : Workspace :=
  ⟨"s", [],
   ⟨[((none, "foo"), ⟨none, "foo", "^2.0.0"⟩)], [],
    [((some "types", "foo"), ⟨some "types", "foo", "^1.5"⟩)], []⟩⟩

/-- Concrete instances for the C9 witness: a first run that inserts the
companion via the feasibility probe. -/
def c9Ext : AddExt :=
  ⟨fun _ => true, fun d0 => if d0.scope = some "types" then some ["ok"] else some [],
   fun r => r, fun r => r = "^2.0.0", fun r => if r = "^2.0.0" then some 2 else none⟩

def c9Desc : Desc := ⟨none, "foo", "^2.0.0"⟩

def c9W : Workspace := ⟨"a", [], ⟨[], [], [], []⟩⟩

def c9W1 : Workspace :=
  ⟨"a", [], ⟨[], [((some "types", "foo"), ⟨some "types", "foo", "^2"⟩)], [], []⟩⟩

/-! ### Basic lemmas about the map model -/

theorem mapGet_mapSet_self (m : DepMap) (k : IdentKey) (v : Desc) :
    mapGet (mapSet m k v) k = some v := by
  induction m with
  | nil => simp [mapGet, mapSet]
  | cons e rest ih =>
    by_cases h : e.1 = k
    · simp [mapGet, mapSet, h]
    · simp [mapGet, mapSet, h, ih]

theorem mapGet_mapSet_ne (m : DepMap) (k : IdentKey) (v : Desc) (k0 : IdentKey)
    (h : k0 ≠ k) : mapGet (mapSet m k v) k0 = mapGet m k0 := by
  have hkk0 : ¬(k = k0) := fun hc => h hc.symm
  induction m with
  | nil => simp [mapGet, mapSet, hkk0]
  | cons e rest ih =>
    by_cases he : e.1 = k
    · have he0 : ¬(e.1 = k0) := by rw [he]; exact hkk0
      simp only [mapSet, if_pos he, mapGet, if_neg hkk0, if_neg he0]
    · simp only [mapSet, if_neg he, mapGet, ih]

theorem mapSet_same (m : DepMap) (k : IdentKey) (v : Desc)
    (h : mapGet m k = some v) : mapSet m k v = m := by
  induction m with
  | nil => simp [mapGet] at h
  | cons e rest ih =>
    by_cases he : e.1 = k
    · simp only [mapGet, if_pos he] at h
      cases h
      simp only [mapSet, if_pos he]
      have hek : (k, e.2) = e := by rw [← he]
      rw [hek]
    · simp only [mapGet, if_neg he] at h
      simp only [mapSet, if_neg he, ih h]

theorem mapGet_mem (m : DepMap) (k : IdentKey) (v : Desc)
    (h : mapGet m k = some v) : (k, v) ∈ m := by
  induction m with
  | nil => simp [mapGet] at h
  | cons e rest ih =>
    by_cases he : e.1 = k
    · simp only [mapGet, if_pos he] at h
      cases h
      have hek : (k, e.2) = e := by rw [← he]
      rw [hek]
      exact List.mem_cons_self e rest
    · simp only [mapGet, if_neg he] at h
      exact List.mem_cons_of_mem _ (ih h)

theorem mapGet_mapDelete_self (m : DepMap) (k : IdentKey) :
    mapGet (mapDelete m k) k = none := by
  induction m with
  | nil => rfl
  | cons e rest ih =>
    by_cases he : e.1 = k
    · have hstep : mapDelete (e :: rest) k = mapDelete rest k := by
        simp [mapDelete, List.filter_cons, he]
      rw [hstep, ih]
    · have hstep : mapDelete (e :: rest) k = e :: mapDelete rest k := by
        simp [mapDelete, List.filter_cons, he]
      rw [hstep]
      simp only [mapGet, if_neg he, ih]

theorem mapGet_mapDelete_ne (m : DepMap) (k k0 : IdentKey) (h : k0 ≠ k) :
    mapGet (mapDelete m k) k0 = mapGet m k0 := by
  induction m with
  | nil => rfl
  | cons e rest ih =>
    by_cases he : e.1 = k
    · have he0 : ¬(e.1 = k0) := by rw [he]; exact fun hc => h hc.symm
      have hstep : mapDelete (e :: rest) k = mapDelete rest k := by
        simp [mapDelete, List.filter_cons, he]
      rw [hstep, ih]
      simp only [mapGet, if_neg he0]
    · have hstep : mapDelete (e :: rest) k = e :: mapDelete rest k := by
        simp [mapDelete, List.filter_cons, he]
      rw [hstep]
      by_cases he0 : e.1 = k0
      · simp only [mapGet, if_pos he0]
      · simp only [mapGet, if_neg he0, ih]

theorem getKind_setKind_self (m : Manifest) (t : DepKind) (x : DepMap) :
    (m.setKind t x).getKind t = x := by
  cases t <;> rfl

theorem getKind_setKind_ne (m : Manifest) (t t0 : DepKind) (x : DepMap)
    (h : t0 ≠ t) : (m.setKind t x).getKind t0 = m.getKind t0 := by
  cases t <;> cases t0 <;> first | rfl | exact absurd rfl h

theorem setKind_getKind (m : Manifest) (t : DepKind) :
    m.setKind t (m.getKind t) = m := by
  cases t <;> rfl

theorem depKind_mem_allDependencies (t : DepKind) : t ∈ allDependencies := by
  cases t <;> simp [allDependencies]

/-! ### Lemmas about `List.findSome?` (the shape `mapAndFind` takes here) -/

theorem findSome_nil (f : α → Option β) : List.findSome? f [] = none := rfl

theorem findSome_cons (f : α → Option β) (a : α) (l : List α) :
    List.findSome? f (a :: l) =
      match f a with
      | some b => some b
      | none => List.findSome? f l := rfl

theorem findSome_eq_none_of (f : α → Option β) (l : List α)
    (h : ∀ a ∈ l, f a = none) : List.findSome? f l = none := by
  induction l with
  | nil => rfl
  | cons a l ih =>
    rw [findSome_cons, h a (List.mem_cons_self a l)]
    exact ih fun x hx => h x (List.mem_cons_of_mem _ hx)

theorem findSome_mem (f : α → Option β) (l : List α) (b : β)
    (h : List.findSome? f l = some b) : ∃ a ∈ l, f a = some b := by
  induction l with
  | nil => simp [findSome_nil] at h
  | cons a l ih =>
    rw [findSome_cons] at h
    cases hfa : f a with
    | some b0 =>
      rw [hfa] at h
      cases h
      exact ⟨a, List.mem_cons_self a l, hfa⟩
    | none =>
      rw [hfa] at h
      obtain ⟨x, hx, hfx⟩ := ih h
      exact ⟨x, List.mem_cons_of_mem _ hx, hfx⟩

theorem findSome_first (f : α → Option β) (l1 : List α) (x : α) (l2 : List α) (b : β)
    (h1 : ∀ a ∈ l1, f a = none) (h2 : f x = some b) :
    List.findSome? f (l1 ++ x :: l2) = some b := by
  induction l1 with
  | nil => simp [findSome_cons, h2]
  | cons a l1 ih =>
    rw [List.cons_append, findSome_cons, h1 a (List.mem_cons_self a l1)]
    exact ih fun y hy => h1 y (List.mem_cons_of_mem _ hy)

theorem findSome_append_eq_none (f : α → Option β) (l1 l2 : List α)
    (h : List.findSome? f (l1 ++ l2) = none) :
    (∀ a ∈ l1, f a = none) ∧ List.findSome? f l2 = none := by
  induction l1 with
  | nil => exact ⟨by simp, h⟩
  | cons a l1 ih =>
    rw [List.cons_append, findSome_cons] at h
    cases hfa : f a with
    | some b => rw [hfa] at h; cases h
    | none =>
      rw [hfa] at h
      obtain ⟨h1, h2⟩ := ih h
      refine ⟨fun y hy => ?_, h2⟩
      rcases List.mem_cons.mp hy with rfl | hy
      · exact hfa
      · exact h1 y hy

/-! ### Lemmas about the propagation machinery of the addition hook -/


theorem applyEntries_eq_foldl (w : Workspace) (l : List (DepKind × Desc)) :
    applyEntries w l = l.foldl applyOne w := rfl

theorem applyEntries_nil (w : Workspace) : applyEntries w [] = w := rfl

theorem applyEntries_cons (w : Workspace) (e : DepKind × Desc) (l : List (DepKind × Desc)) :
    applyEntries w (e :: l) = applyEntries (applyOne w e) l := rfl

theorem applyOne_get (w : Workspace) (e : DepKind × Desc) (t : DepKind) (k : IdentKey) :
    mapGet ((applyOne w e).manifest.getKind t) k =
      if t = e.1 ∧ k = identHash e.2 then some e.2
      else mapGet (w.manifest.getKind t) k := by
  by_cases ht : t = e.1
  · subst ht
    rw [applyOne, getKind_setKind_self]
    by_cases hk : k = identHash e.2
    · subst hk
      rw [mapGet_mapSet_self, if_pos ⟨rfl, rfl⟩]
    · rw [mapGet_mapSet_ne _ _ _ _ hk, if_neg]
      intro hc
      exact hk hc.2
  · rw [applyOne, getKind_setKind_ne _ _ _ _ ht, if_neg]
    intro hc
    exact ht hc.1

theorem applyOne_same (w : Workspace) (e : DepKind × Desc)
    (h : mapGet (w.manifest.getKind e.1) (identHash e.2) = some e.2) :
    applyOne w e = w := by
  rw [applyOne, mapSet_same _ _ _ h, setKind_getKind]

/-- If the workspace already stores every entry of `l` (same kind, same key,
same value), replaying the propagation loop changes nothing. -/
theorem applyEntries_self (w : Workspace) (l : List (DepKind × Desc))
    (h : ∀ e ∈ l, mapGet (w.manifest.getKind e.1) (identHash e.2) = some e.2) :
    applyEntries w l = w := by
  induction l with
  | nil => rfl
  | cons e l ih =>
    rw [applyEntries_cons, applyOne_same w e (h e (List.mem_cons_self e l))]
    exact ih fun x hx => h x (List.mem_cons_of_mem _ hx)

/-- Kinds not mentioned by the entry list keep their collection. -/
theorem applyEntries_getKind_not_mem (w : Workspace) (l : List (DepKind × Desc)) (t : DepKind)
    (h : t ∉ l.map Prod.fst) : (applyEntries w l).manifest.getKind t = w.manifest.getKind t := by
  induction l generalizing w with
  | nil => rfl
  | cons e l ih =>
    rw [applyEntries_cons]
    have hne : t ≠ e.1 := by
      intro hc
      exact h (by rw [List.map_cons, hc]; exact List.mem_cons_self _ _)
    rw [ih (applyOne w e) (fun hc => h (List.mem_cons_of_mem _ hc)), applyOne,
      getKind_setKind_ne _ _ _ _ hne]

/-- After the propagation loop, every entry of a kind-wise duplicate-free
entry list is found back in the resulting workspace. -/
theorem applyEntries_get_of_nodup (w : Workspace) (l : List (DepKind × Desc))
    (hn : (l.map Prod.fst).Nodup) (e : DepKind × Desc) (he : e ∈ l) :
    mapGet ((applyEntries w l).manifest.getKind e.1) (identHash e.2) = some e.2 := by
  induction l generalizing w with
  | nil => cases he
  | cons e0 l ih =>
    rw [List.map_cons, List.nodup_cons] at hn
    rcases List.mem_cons.mp he with rfl | he
    · rw [applyEntries_cons,
        applyEntries_getKind_not_mem (applyOne w e) l e.1 hn.1,
        applyOne_get, if_pos ⟨rfl, rfl⟩]
    · rw [applyEntries_cons]
      exact ih (applyOne w e0) hn.2 he

/-- Keys other than `aid` are untouched by the propagation loop when every
copied value has ident hash `aid`. -/
theorem applyEntries_get_ne_key (w : Workspace) (l : List (DepKind × Desc)) (aid : IdentKey)
    (hl : ∀ e ∈ l, identHash e.2 = aid) (t : DepKind) (k : IdentKey) (hk : k ≠ aid) :
    mapGet ((applyEntries w l).manifest.getKind t) k = mapGet (w.manifest.getKind t) k := by
  induction l generalizing w with
  | nil => rfl
  | cons e l ih =>
    rw [applyEntries_cons, ih (applyOne w e) (fun x hx => hl x (List.mem_cons_of_mem _ hx)),
      applyOne_get, if_neg]
    intro hc
    rw [hl e (List.mem_cons_self e l)] at hc
    exact hk hc.2

theorem applyEntries_cwd (w : Workspace) (l : List (DepKind × Desc)) :
    (applyEntries w l).cwd = w.cwd := by
  induction l generalizing w with
  | nil => rfl
  | cons e l ih => rw [applyEntries_cons, ih]; rfl

/-- Membership in the collected companion entries. -/
theorem collectAtTypes_mem (m : Manifest) (aid : IdentKey) (t : DepKind) (v : Desc) :
    (t, v) ∈ collectAtTypes m aid ↔ mapGet (m.getKind t) aid = some v := by
  constructor
  · intro h
    obtain ⟨t0, _, h0⟩ := List.mem_filterMap.mp h
    cases hg : mapGet (m.getKind t0) aid with
    | none => rw [hg] at h0; cases h0
    | some v0 =>
      rw [hg] at h0
      simp only [Option.map_some', Option.some.injEq, Prod.mk.injEq] at h0
      obtain ⟨rfl, rfl⟩ := h0
      exact hg
  · intro h
    exact List.mem_filterMap.mpr ⟨t, depKind_mem_allDependencies t, by rw [h]; rfl⟩

/-- The collected companion entries carry pairwise distinct kinds. -/
theorem collectAtTypes_kinds_nodup (m : Manifest) (aid : IdentKey) :
    ((collectAtTypes m aid).map Prod.fst).Nodup := by
  have hsub : ∀ ts : List DepKind,
      ((ts.filterMap (fun t => (mapGet (m.getKind t) aid).map (fun dep => (t, dep)))).map
        Prod.fst).Sublist ts := by
    intro ts
    induction ts with
    | nil => exact List.Sublist.refl []
    | cons t ts ih =>
      rw [List.filterMap_cons]
      cases mapGet (m.getKind t) aid with
      | none => exact ih.cons t
      | some v => exact ih.cons₂ t
  exact (hsub allDependencies).nodup (by decide)

/-- Empty collection means every kind misses the companion ident. -/
theorem collectAtTypes_eq_nil_iff (m : Manifest) (aid : IdentKey) :
    collectAtTypes m aid = [] ↔ ∀ t : DepKind, mapGet (m.getKind t) aid = none := by
  constructor
  · intro h t
    cases hg : mapGet (m.getKind t) aid with
    | none => rfl
    | some v =>
      have : (t, v) ∈ collectAtTypes m aid := (collectAtTypes_mem m aid t v).mpr hg
      rw [h] at this
      cases this
  · intro h
    rw [collectAtTypes]
    apply List.filterMap_eq_nil_iff.mpr
    intro t _
    rw [h t]
    rfl

/-- Pointwise equal companion lookups give equal collections. -/
theorem collectAtTypes_congr (m1 m2 : Manifest) (aid : IdentKey)
    (h : ∀ t : DepKind, mapGet (m1.getKind t) aid = mapGet (m2.getKind t) aid) :
    collectAtTypes m1 aid = collectAtTypes m2 aid := by
  rw [collectAtTypes, collectAtTypes]
  apply List.filterMap_congr
  intro t _
  rw [h t]


theorem suggestFor_eq_some_iff (d : Desc) (aid : IdentKey) (w : Workspace)
    (E : List (DepKind × Desc)) :
    suggestFor d aid w = some E ↔
      hashMatches d w ∧ E = collectAtTypes w.manifest aid ∧ E ≠ [] := by
  rw [suggestFor, hashMatches]
  by_cases hm :
      (mapGet w.manifest.dependencies (identHash d)).map descriptorHash ≠ some (descriptorHash d) ∧
      (mapGet w.manifest.devDependencies (identHash d)).map descriptorHash ≠ some (descriptorHash d)
  · rw [if_pos hm]
    constructor
    · intro hc; cases hc
    · intro ⟨h1, _, _⟩
      rcases h1 with h1 | h1
      · exact absurd h1 hm.1
      · exact absurd h1 hm.2
  · rw [if_neg hm]
    rw [Classical.not_and_iff_or_not_not, not_not, not_not] at hm
    by_cases hnil : (collectAtTypes w.manifest aid).isEmpty
    · rw [if_pos hnil]
      rw [List.isEmpty_iff] at hnil
      constructor
      · intro hc; cases hc
      · intro ⟨_, hE, hne⟩
        exact absurd (hE.trans hnil) hne
    · rw [if_neg hnil]
      rw [List.isEmpty_iff] at hnil
      constructor
      · intro hc
        cases hc
        exact ⟨hm, rfl, hnil⟩
      · intro ⟨_, hE, _⟩
        rw [hE]

theorem suggestFor_eq_none_iff (d : Desc) (aid : IdentKey) (w : Workspace) :
    suggestFor d aid w = none ↔
      ¬hashMatches d w ∨ collectAtTypes w.manifest aid = [] := by
  rw [suggestFor, hashMatches]
  by_cases hm :
      (mapGet w.manifest.dependencies (identHash d)).map descriptorHash ≠ some (descriptorHash d) ∧
      (mapGet w.manifest.devDependencies (identHash d)).map descriptorHash ≠ some (descriptorHash d)
  · rw [if_pos hm]
    constructor
    · intro _
      left
      intro hc
      rcases hc with hc | hc
      · exact hm.1 hc
      · exact hm.2 hc
    · intro _; rfl
  · rw [if_neg hm]
    rw [Classical.not_and_iff_or_not_not, not_not, not_not] at hm
    by_cases hnil : (collectAtTypes w.manifest aid).isEmpty
    · rw [if_pos hnil]
      rw [List.isEmpty_iff] at hnil
      constructor
      · intro _
        right
        exact hnil
      · intro _; rfl
    · rw [if_neg hnil]
      rw [List.isEmpty_iff] at hnil
      constructor
      · intro hc; cases hc
      · intro hc
        rcases hc with hc | hc
        · exact absurd hm hc
        · exact absurd hc hnil



theorem wf_mapGet (m : DepMap) (k : IdentKey) (v : Desc) (hwf : WfMap m)
    (h : mapGet m k = some v) : identHash v = k :=
  (hwf (k, v) (mapGet_mem m k v h)).symm

/-- In a well-formed workspace, collected companion entries carry the
companion ident hash. -/
theorem suggest_entries_aid (d : Desc) (aid : IdentKey) (u : Workspace)
    (E : List (DepKind × Desc)) (hwf : WfWorkspace u)
    (h : suggestFor d aid u = some E) : ∀ e ∈ E, identHash e.2 = aid := by
  obtain ⟨_, hE, _⟩ := (suggestFor_eq_some_iff d aid u E).mp h
  intro e he
  rw [hE] at he
  have hget : mapGet (u.manifest.getKind e.1) aid = some e.2 :=
    (collectAtTypes_mem u.manifest aid e.1 e.2).mp he
  exact wf_mapGet _ _ _ (hwf e.1) hget

theorem suggest_entries_nodup (d : Desc) (aid : IdentKey) (u : Workspace)
    (E : List (DepKind × Desc)) (h : suggestFor d aid u = some E) :
    (E.map Prod.fst).Nodup := by
  obtain ⟨_, hE, _⟩ := (suggestFor_eq_some_iff d aid u E).mp h
  rw [hE]
  exact collectAtTypes_kinds_nodup u.manifest aid

/-! ### Lemmas about the reference synchronizer -/

theorem contains_of_mem (l : List String) (p : String) (h : p ∈ l) :
    l.contains p = true := by
  induction l with
  | nil => cases h
  | cons a l ih =>
    rcases List.mem_cons.mp h with rfl | h
    · simp [List.contains_cons]
    · simp only [List.contains_cons, ih h, Bool.or_true]

theorem mem_of_contains (l : List String) (p : String) (h : l.contains p = true) :
    p ∈ l := by
  induction l with
  | nil => simp [List.contains_cons] at h
  | cons a l ih =>
    rw [List.contains_cons] at h
    rcases Bool.or_eq_true_iff.mp h with h | h
    · rw [beq_iff_eq] at h
      rw [h]
      exact List.mem_cons_self a l
    · exact List.mem_cons_of_mem _ (ih h)

theorem fsRead_fsWrite_self (fs : Fs) (c : String) (t : TsConfig) :
    fsRead (fsWrite fs c t) c = some t := by
  simp [fsRead, fsWrite]

theorem fsRead_fsWrite_ne (fs : Fs) (c : String) (t : TsConfig) (c0 : String)
    (h : c0 ≠ c) : fsRead (fsWrite fs c t) c0 = fsRead fs c0 := by
  have hcc : ¬(c = c0) := fun hc => h hc.symm
  simp [fsRead, fsWrite, hcc]

theorem syncOne_none_nil (ext : SyncExt) (ws : List Workspace) (fs : Fs) (wi : Nat)
    (w : Workspace) (h : fsRead fs w.cwd = none)
    (hrefs : referencedWorkspaces ext ws wi w = []) :
    syncOne ext ws fs wi w = (fsWrite fs w.cwd ⟨none, ""⟩, true) := by
  simp [syncOne, h, hrefs]

theorem syncOne_none_cons (ext : SyncExt) (ws : List Workspace) (fs : Fs) (wi : Nat)
    (w : Workspace) (p : String) (ps : List String) (h : fsRead fs w.cwd = none)
    (hrefs : referencedWorkspaces ext ws wi w = p :: ps) :
    syncOne ext ws fs wi w = (fsWrite fs w.cwd ⟨some (p :: ps), ""⟩, true) := by
  simp [syncOne, h, hrefs]

theorem syncOne_some_nil_none (ext : SyncExt) (ws : List Workspace) (fs : Fs) (wi : Nat)
    (w : Workspace) (t : TsConfig) (h : fsRead fs w.cwd = some t)
    (hrefs : referencedWorkspaces ext ws wi w = []) (hr : t.references = none) :
    syncOne ext ws fs wi w = (fs, false) := by
  simp [syncOne, h, hrefs, hr]

theorem syncOne_some_nil_some (ext : SyncExt) (ws : List Workspace) (fs : Fs) (wi : Nat)
    (w : Workspace) (t : TsConfig) (x : List String) (h : fsRead fs w.cwd = some t)
    (hrefs : referencedWorkspaces ext ws wi w = []) (hr : t.references = some x) :
    syncOne ext ws fs wi w = (fsWrite fs w.cwd { t with references := none }, true) := by
  simp [syncOne, h, hrefs, hr]

theorem syncOne_some_cons_changed (ext : SyncExt) (ws : List Workspace) (fs : Fs) (wi : Nat)
    (w : Workspace) (t : TsConfig) (p : String) (ps : List String)
    (h : fsRead fs w.cwd = some t)
    (hrefs : referencedWorkspaces ext ws wi w = p :: ps)
    (hany : (p :: ps).any (fun q => !((t.references.getD []).contains q)) = true) :
    syncOne ext ws fs wi w = (fsWrite fs w.cwd { t with references := some (p :: ps) }, true) := by
  simp [syncOne, h, hrefs, hany]
  intro hp
  obtain ⟨q, hq, hq2⟩ := List.any_eq_true.mp hany
  have hqn : q ∉ t.references.getD [] := by
    intro hmem
    rw [contains_of_mem _ q hmem] at hq2
    cases hq2
  rcases List.mem_cons.mp hq with rfl | hq
  · exact absurd hp hqn
  · exact ⟨q, hq, hqn⟩

theorem syncOne_some_cons_same (ext : SyncExt) (ws : List Workspace) (fs : Fs) (wi : Nat)
    (w : Workspace) (t : TsConfig) (p : String) (ps : List String)
    (h : fsRead fs w.cwd = some t)
    (hrefs : referencedWorkspaces ext ws wi w = p :: ps)
    (hany : (p :: ps).any (fun q => !((t.references.getD []).contains q)) = false) :
    syncOne ext ws fs wi w = (fs, false) := by
  have hall : ∀ q ∈ p :: ps, q ∈ t.references.getD [] := by
    intro q hq
    have hnq := List.any_eq_false.mp hany q hq
    cases hcq : (t.references.getD []).contains q with
    | true => exact mem_of_contains _ q hcq
    | false => exact absurd (by rw [hcq]; rfl) hnq
  simp [syncOne, h, hrefs, hany]
  exact ⟨hall p (List.mem_cons_self p ps), fun x hx => hall x (List.mem_cons_of_mem _ hx)⟩


theorem syncOne_of_good (ext : SyncExt) (ws : List Workspace) (fs : Fs) (wi : Nat)
    (w : Workspace) (hg : goodDoc ext ws wi w fs) :
    syncOne ext ws fs wi w = (fs, false) := by
  obtain ⟨t, hread, ht⟩ := hg
  cases hrefs : referencedWorkspaces ext ws wi w with
  | nil =>
    rw [hrefs] at ht
    exact syncOne_some_nil_none ext ws fs wi w t hread hrefs ht
  | cons p ps =>
    rw [hrefs] at ht
    refine syncOne_some_cons_same ext ws fs wi w t p ps hread hrefs ?_
    rw [List.any_eq_false]
    intro q hq
    rw [ht q hq]
    intro hc
    cases hc

theorem syncOne_good_after (ext : SyncExt) (ws : List Workspace) (fs : Fs) (wi : Nat)
    (w : Workspace) : goodDoc ext ws wi w (syncOne ext ws fs wi w).1 := by
  cases hread : fsRead fs w.cwd with
  | none =>
    cases hrefs : referencedWorkspaces ext ws wi w with
    | nil =>
      rw [syncOne_none_nil ext ws fs wi w hread hrefs]
      exact ⟨⟨none, ""⟩, fsRead_fsWrite_self fs w.cwd _, by rw [hrefs]⟩
    | cons p ps =>
      rw [syncOne_none_cons ext ws fs wi w p ps hread hrefs]
      refine ⟨⟨some (p :: ps), ""⟩, fsRead_fsWrite_self fs w.cwd _, ?_⟩
      rw [hrefs]
      intro q hq
      exact contains_of_mem _ q hq
  | some t =>
    cases hrefs : referencedWorkspaces ext ws wi w with
    | nil =>
      cases hr : t.references with
      | none =>
        rw [syncOne_some_nil_none ext ws fs wi w t hread hrefs hr]
        exact ⟨t, hread, by rw [hrefs]; exact hr⟩
      | some x =>
        rw [syncOne_some_nil_some ext ws fs wi w t x hread hrefs hr]
        exact ⟨{ t with references := none }, fsRead_fsWrite_self fs w.cwd _, by rw [hrefs]⟩
    | cons p ps =>
      cases hany : (p :: ps).any (fun q => !((t.references.getD []).contains q)) with
      | true =>
        rw [syncOne_some_cons_changed ext ws fs wi w t p ps hread hrefs hany]
        refine ⟨{ t with references := some (p :: ps) }, fsRead_fsWrite_self fs w.cwd _, ?_⟩
        rw [hrefs]
        intro q hq
        exact contains_of_mem _ q hq
      | false =>
        rw [syncOne_some_cons_same ext ws fs wi w t p ps hread hrefs hany]
        refine ⟨t, hread, ?_⟩
        rw [hrefs]
        intro q hq
        have := List.any_eq_false.mp hany q hq
        cases hcq : (t.references.getD []).contains q with
        | true => rfl
        | false => rw [hcq] at this; exact absurd rfl this

theorem syncOne_fst_cases (ext : SyncExt) (ws : List Workspace) (fs : Fs) (wi : Nat)
    (w : Workspace) :
    (syncOne ext ws fs wi w).1 = fs ∨
      ∃ x, (syncOne ext ws fs wi w).1 = fsWrite fs w.cwd x := by
  cases hread : fsRead fs w.cwd with
  | none =>
    cases hrefs : referencedWorkspaces ext ws wi w with
    | nil => right; exact ⟨_, by rw [syncOne_none_nil ext ws fs wi w hread hrefs]⟩
    | cons p ps => right; exact ⟨_, by rw [syncOne_none_cons ext ws fs wi w p ps hread hrefs]⟩
  | some t =>
    cases hrefs : referencedWorkspaces ext ws wi w with
    | nil =>
      cases hr : t.references with
      | none => left; rw [syncOne_some_nil_none ext ws fs wi w t hread hrefs hr]
      | some x => right; exact ⟨_, by rw [syncOne_some_nil_some ext ws fs wi w t x hread hrefs hr]⟩
    | cons p ps =>
      cases hany : (p :: ps).any (fun q => !((t.references.getD []).contains q)) with
      | true =>
        right
        exact ⟨_, by rw [syncOne_some_cons_changed ext ws fs wi w t p ps hread hrefs hany]⟩
      | false => left; rw [syncOne_some_cons_same ext ws fs wi w t p ps hread hrefs hany]

theorem syncOne_fsRead_ne (ext : SyncExt) (ws : List Workspace) (fs : Fs) (wi : Nat)
    (w : Workspace) (c : String) (hc : c ≠ w.cwd) :
    fsRead (syncOne ext ws fs wi w).1 c = fsRead fs c := by
  rcases syncOne_fst_cases ext ws fs wi w with h | ⟨x, h⟩
  · rw [h]
  · rw [h, fsRead_fsWrite_ne fs w.cwd x c hc]

theorem goodDoc_of_read_eq (ext : SyncExt) (ws : List Workspace) (wi : Nat) (w : Workspace)
    (fs1 fs2 : Fs) (h : fsRead fs2 w.cwd = fsRead fs1 w.cwd)
    (hg : goodDoc ext ws wi w fs1) : goodDoc ext ws wi w fs2 := by
  obtain ⟨t, hread, ht⟩ := hg
  exact ⟨t, by rw [h, hread], ht⟩

theorem syncAll_fsRead_ne (ext : SyncExt) (ws : List Workspace) (c : String) :
    ∀ (i : Nat) (rest : List Workspace) (fs : Fs), c ∉ rest.map Workspace.cwd →
      fsRead (syncAll ext ws i rest fs).1 c = fsRead fs c := by
  intro i rest
  induction rest generalizing i with
  | nil => intro fs _; rfl
  | cons w rest ih =>
    intro fs hc
    rw [List.map_cons, List.mem_cons] at hc
    push_neg at hc
    rw [syncAll]
    exact (ih (i + 1) _ hc.2).trans (syncOne_fsRead_ne ext ws fs i w c hc.1)

theorem syncAll_good (ext : SyncExt) (ws : List Workspace) :
    ∀ (i : Nat) (rest : List Workspace) (fs : Fs), (rest.map Workspace.cwd).Nodup →
      ∀ (k : Nat) (w0 : Workspace), rest[k]? = some w0 →
        goodDoc ext ws (i + k) w0 (syncAll ext ws i rest fs).1 := by
  intro i rest
  induction rest generalizing i with
  | nil => intro fs _ k w0 hk; simp at hk
  | cons w rest ih =>
    intro fs hnd k w0 hk
    rw [List.map_cons, List.nodup_cons] at hnd
    rw [syncAll]
    cases k with
    | zero =>
      rw [List.getElem?_cons_zero] at hk
      injection hk with hk
      subst hk
      refine goodDoc_of_read_eq ext ws (i + 0) w (syncOne ext ws fs i w).1 _ ?_ ?_
      · exact syncAll_fsRead_ne ext ws w.cwd (i + 1) rest _ hnd.1
      · rw [Nat.add_zero]
        exact syncOne_good_after ext ws fs i w
    | succ k =>
      rw [List.getElem?_cons_succ] at hk
      have hgk := ih (i + 1) (syncOne ext ws fs i w).1 hnd.2 k w0 hk
      rw [show i + 1 + k = i + (k + 1) by omega] at hgk
      exact hgk

theorem syncAll_of_good (ext : SyncExt) (ws : List Workspace) :
    ∀ (i : Nat) (rest : List Workspace) (fs : Fs),
      (∀ (k : Nat) (w0 : Workspace), rest[k]? = some w0 → goodDoc ext ws (i + k) w0 fs) →
      syncAll ext ws i rest fs = (fs, []) := by
  intro i rest
  induction rest generalizing i with
  | nil => intro fs _; rfl
  | cons w rest ih =>
    intro fs hg
    have h0 : goodDoc ext ws i w fs := by
      have := hg 0 w (by rw [List.getElem?_cons_zero])
      rwa [Nat.add_zero] at this
    rw [syncAll, syncOne_of_good ext ws fs i w h0]
    have htail : syncAll ext ws (i + 1) rest fs = (fs, []) := by
      apply ih (i + 1) fs
      intro k w0 hk
      have := hg (k + 1) w0 (by rw [List.getElem?_cons_succ]; exact hk)
      rwa [show i + (k + 1) = i + 1 + k by omega] at this
    rw [htail]
    simp

/-! ### Unfolding lemmas for the addition hook -/

theorem getKind_regular (m : Manifest) : m.getKind .regular = m.dependencies := rfl

theorem getKind_development (m : Manifest) : m.getKind .development = m.devDependencies := rfl

theorem addition_scope_types (ext : AddExt) (before : List Workspace) (w : Workspace)
    (after : List Workspace) (d : Desc) (h : d.scope = some "types") :
    afterWorkspaceDependencyAddition ext before w after d = ⟨.ok (before ++ w :: after), []⟩ := by
  rw [afterWorkspaceDependencyAddition, if_pos h]

theorem addition_no_types_needed (ext : AddExt) (before : List Workspace) (w : Workspace)
    (after : List Workspace) (d : Desc) (h1 : ¬d.scope = some "types")
    (h2 : ext.hasDefinitelyTyped d = false) :
    afterWorkspaceDependencyAddition ext before w after d = ⟨.ok (before ++ w :: after), []⟩ := by
  rw [afterWorkspaceDependencyAddition, if_neg h1, if_pos h2]

theorem addition_selector_error (ext : AddExt) (before : List Workspace) (w : Workspace)
    (after : List Workspace) (d : Desc) (h1 : ¬d.scope = some "types")
    (h2 : ext.hasDefinitelyTyped d = true) (h3 : chosenSelector ext d = .error ()) :
    afterWorkspaceDependencyAddition ext before w after d =
      ⟨.error (), if ext.validRange (ext.parseRangeSelector d.range) then [] else [d]⟩ := by
  simp only [afterWorkspaceDependencyAddition, h1, h2, h3, if_false, reduceCtorEq, ite_false]

theorem addition_coerce_none (ext : AddExt) (before : List Workspace) (w : Workspace)
    (after : List Workspace) (d : Desc) (sel : String) (h1 : ¬d.scope = some "types")
    (h2 : ext.hasDefinitelyTyped d = true) (h3 : chosenSelector ext d = .ok sel)
    (h4 : ext.coerce sel = none) :
    afterWorkspaceDependencyAddition ext before w after d =
      ⟨.ok (before ++ w :: after),
        if ext.validRange (ext.parseRangeSelector d.range) then [] else [d]⟩ := by
  simp only [afterWorkspaceDependencyAddition, h1, h2, h3, h4, if_false, reduceCtorEq,
    ite_false]

theorem addition_coerce_some (ext : AddExt) (before : List Workspace) (w : Workspace)
    (after : List Workspace) (d : Desc) (sel : String) (major : Nat)
    (h1 : ¬d.scope = some "types") (h2 : ext.hasDefinitelyTyped d = true)
    (h3 : chosenSelector ext d = .ok sel) (h4 : ext.coerce sel = some major) :
    afterWorkspaceDependencyAddition ext before w after d =
      reconcileCompanion ext before w after d (companionDescriptor d major)
        (if ext.validRange (ext.parseRangeSelector d.range) then [] else [d]) := by
  simp only [afterWorkspaceDependencyAddition, h1, h2, h3, h4, if_false, reduceCtorEq,
    ite_false]

theorem reconcile_scan_some (ext : AddExt) (before : List Workspace) (w : Workspace)
    (after : List Workspace) (d : Desc) (atTypes : Desc) (tq : List Desc)
    (entries : List (DepKind × Desc))
    (h : (before ++ w :: after).findSome? (suggestFor d (identHash atTypes)) = some entries) :
    reconcileCompanion ext before w after d atTypes tq =
      ⟨.ok (before ++ applyEntries w entries :: after), tq⟩ := by
  rw [reconcileCompanion, h]

theorem reconcile_probe_error (ext : AddExt) (before : List Workspace) (w : Workspace)
    (after : List Workspace) (d : Desc) (atTypes : Desc) (tq : List Desc)
    (h : (before ++ w :: after).findSome? (suggestFor d (identHash atTypes)) = none)
    (hc : ext.getCandidates atTypes = none) :
    reconcileCompanion ext before w after d atTypes tq =
      ⟨.ok (before ++ w :: after), tq ++ [atTypes]⟩ := by
  rw [reconcileCompanion, h, hc]

theorem reconcile_probe_empty (ext : AddExt) (before : List Workspace) (w : Workspace)
    (after : List Workspace) (d : Desc) (atTypes : Desc) (tq : List Desc)
    (h : (before ++ w :: after).findSome? (suggestFor d (identHash atTypes)) = none)
    (hc : ext.getCandidates atTypes = some []) :
    reconcileCompanion ext before w after d atTypes tq =
      ⟨.ok (before ++ w :: after), tq ++ [atTypes]⟩ := by
  rw [reconcileCompanion, h, hc]

theorem reconcile_probe_found (ext : AddExt) (before : List Workspace) (w : Workspace)
    (after : List Workspace) (d : Desc) (atTypes : Desc) (tq : List Desc)
    (c : String) (cs : List String)
    (h : (before ++ w :: after).findSome? (suggestFor d (identHash atTypes)) = none)
    (hc : ext.getCandidates atTypes = some (c :: cs)) :
    reconcileCompanion ext before w after d atTypes tq =
      ⟨.ok (before ++ setDevCompanion w atTypes :: after), tq ++ [atTypes]⟩ := by
  rw [reconcileCompanion, h, hc]

theorem setDevCompanion_get_dev (w : Workspace) (atT : Desc) :
    mapGet ((setDevCompanion w atT).manifest.getKind .development) (identHash atT) =
      some atT := by
  show mapGet ((w.manifest.setKind .development
      (mapSet (w.manifest.getKind .development) (identHash atT) atT)).getKind .development)
    (identHash atT) = some atT
  rw [getKind_setKind_self, mapGet_mapSet_self]

theorem setDevCompanion_getKind_ne (w : Workspace) (atT : Desc) (t : DepKind)
    (ht : t ≠ .development) :
    (setDevCompanion w atT).manifest.getKind t = w.manifest.getKind t := by
  show (w.manifest.setKind .development
      (mapSet (w.manifest.getKind .development) (identHash atT) atT)).getKind t =
    w.manifest.getKind t
  rw [getKind_setKind_ne _ _ _ _ ht]

theorem setDevCompanion_get_ne (w : Workspace) (atT : Desc) (t : DepKind) (k : IdentKey)
    (hk : k ≠ identHash atT) :
    mapGet ((setDevCompanion w atT).manifest.getKind t) k =
      mapGet (w.manifest.getKind t) k := by
  by_cases ht : t = DepKind.development
  · subst ht
    show mapGet ((w.manifest.setKind .development
        (mapSet (w.manifest.getKind .development) (identHash atT) atT)).getKind .development)
      k = mapGet (w.manifest.getKind .development) k
    rw [getKind_setKind_self, mapGet_mapSet_ne _ _ _ _ hk]
  · rw [setDevCompanion_getKind_ne w atT t ht]

theorem setDevCompanion_noop (w : Workspace) (atT : Desc)
    (h : mapGet (w.manifest.getKind .development) (identHash atT) = some atT) :
    setDevCompanion w atT = w := by
  rw [setDevCompanion, mapSet_same _ _ _ h, setKind_getKind]

/-! ### Characterization of the removal hook -/

theorem removeOne_get (ident : IdentKey) (w : Workspace) (t0 t : DepKind) (k : IdentKey) :
    mapGet ((removeOne ident w t0).manifest.getKind t) k =
      if t = t0 ∧ k = ident then none else mapGet (w.manifest.getKind t) k := by
  rw [removeOne]
  cases hg : mapGet (w.manifest.getKind t0) ident with
  | none =>
    by_cases ht : t = t0
    · subst ht
      by_cases hk : k = ident
      · subst hk
        rw [if_pos ⟨rfl, rfl⟩, hg]
      · rw [if_neg (fun hc => hk hc.2)]
    · rw [if_neg (fun hc => ht hc.1)]
  | some v =>
    by_cases ht : t = t0
    · subst ht
      rw [getKind_setKind_self]
      by_cases hk : k = ident
      · subst hk
        rw [if_pos ⟨rfl, rfl⟩, mapGet_mapDelete_self]
      · rw [if_neg (fun hc => hk hc.2), mapGet_mapDelete_ne _ _ _ hk]
    · rw [getKind_setKind_ne _ _ _ _ ht, if_neg (fun hc => ht hc.1)]

theorem removeFold_get (ident : IdentKey) (ts : List DepKind) (w : Workspace)
    (t : DepKind) (k : IdentKey) :
    mapGet ((ts.foldl (removeOne ident) w).manifest.getKind t) k =
      if t ∈ ts ∧ k = ident then none else mapGet (w.manifest.getKind t) k := by
  induction ts generalizing w with
  | nil => simp
  | cons t0 ts ih =>
    rw [List.foldl_cons, ih (removeOne ident w t0), removeOne_get]
    by_cases hk : k = ident
    · subst hk
      by_cases h1 : t ∈ ts
      · simp [h1, List.mem_cons]
      · by_cases h2 : t = t0
        · simp [h1, h2, List.mem_cons]
        · simp [h1, h2, List.mem_cons]
    · simp [hk]

theorem removal_not_types (w : Workspace) (d : Desc) (h : ¬d.scope = some "types") :
    afterWorkspaceDependencyRemoval w d =
      allDependencies.foldl (removeOne (some "types", getTypesName d)) w := by
  rw [afterWorkspaceDependencyRemoval, if_neg h]

/-! ### Idempotence machinery for the addition hook -/

theorem hashMatches_applyEntries (d : Desc) (aid : IdentKey) (w : Workspace)
    (E : List (DepKind × Desc)) (hl : ∀ e ∈ E, identHash e.2 = aid)
    (hne : identHash d ≠ aid) :
    hashMatches d (applyEntries w E) ↔ hashMatches d w := by
  have hr := applyEntries_get_ne_key w E aid hl .regular (identHash d) hne
  have hd := applyEntries_get_ne_key w E aid hl .development (identHash d) hne
  rw [getKind_regular, getKind_regular] at hr
  rw [getKind_development, getKind_development] at hd
  rw [hashMatches, hashMatches, hr, hd]

/-- When the triggering workspace held no companion entry, applying a
sibling's collected entries makes its collection of companion entries the
sibling's collection. -/
theorem collect_applyEntries (w : Workspace) (mu : Manifest) (aid : IdentKey)
    (E : List (DepKind × Desc)) (hw : ∀ t : DepKind, mapGet (w.manifest.getKind t) aid = none)
    (hE : E = collectAtTypes mu aid) (hl : ∀ e ∈ E, identHash e.2 = aid) :
    collectAtTypes (applyEntries w E).manifest aid = E := by
  have hnd : (E.map Prod.fst).Nodup := by
    rw [hE]
    exact collectAtTypes_kinds_nodup mu aid
  have hpt : ∀ t : DepKind,
      mapGet ((applyEntries w E).manifest.getKind t) aid = mapGet (mu.getKind t) aid := by
    intro t
    cases hmu : mapGet (mu.getKind t) aid with
    | some v =>
      have hmem : (t, v) ∈ E := by
        rw [hE]
        exact (collectAtTypes_mem mu aid t v).mpr hmu
      have hgot := applyEntries_get_of_nodup w E hnd (t, v) hmem
      rwa [hl (t, v) hmem] at hgot
    | none =>
      have hnt : t ∉ E.map Prod.fst := by
        intro hc
        obtain ⟨e, he, he1⟩ := List.mem_map.mp hc
        have hev : (t, e.2) ∈ E := by
          have heta : (e.1, e.2) = e := rfl
          rw [← he1, heta]
          exact he
        have hsome : mapGet (mu.getKind t) aid = some e.2 := by
          rw [hE] at hev
          exact (collectAtTypes_mem mu aid t e.2).mp hev
        rw [hmu] at hsome
        cases hsome
      rw [applyEntries_getKind_not_mem w E t hnt, hw t]
  calc collectAtTypes (applyEntries w E).manifest aid
      = collectAtTypes mu aid := collectAtTypes_congr _ mu aid hpt
    _ = E := hE.symm

/-- Core stability of the sibling-propagation scan: when a first run of the
scan finds entries `E` and the triggering workspace is updated by them, a
second run of the scan finds entries whose application is a no-op. -/
theorem scan_propagation_idem (d : Desc) (aid : IdentKey) (hne : identHash d ≠ aid) :
    ∀ (before : List Workspace) (w : Workspace) (after : List Workspace)
      (E : List (DepKind × Desc)),
      (∀ u ∈ before ++ w :: after, WfWorkspace u) →
      (before ++ w :: after).findSome? (suggestFor d aid) = some E →
      (before ++ applyEntries w E :: after).findSome? (suggestFor d aid) = some E ∧
        applyEntries (applyEntries w E) E = applyEntries w E := by
  intro before
  induction before with
  | nil =>
    intro w after E hwf hscan
    rw [List.nil_append] at hscan ⊢
    rw [findSome_cons] at hscan
    cases hfw : suggestFor d aid w with
    | some E0 =>
      rw [hfw] at hscan
      injection hscan with hEq
      rw [hEq] at hfw
      have hwfw : WfWorkspace w := hwf w (List.mem_cons_self _ _)
      have hself : applyEntries w E = w := by
        apply applyEntries_self
        intro e he
        obtain ⟨_, hE, _⟩ := (suggestFor_eq_some_iff d aid w E).mp hfw
        rw [hE] at he
        have hget : mapGet (w.manifest.getKind e.1) aid = some e.2 :=
          (collectAtTypes_mem w.manifest aid e.1 e.2).mp he
        rw [wf_mapGet _ _ _ (hwfw e.1) hget]
        exact hget
      rw [hself]
      exact ⟨by rw [findSome_cons, hfw], hself⟩
    | none =>
      rw [hfw] at hscan
      obtain ⟨u, hu, hfu⟩ := findSome_mem _ after E hscan
      have hwfu : WfWorkspace u := hwf u (List.mem_cons_of_mem _ hu)
      have hl : ∀ e ∈ E, identHash e.2 = aid := suggest_entries_aid d aid u E hwfu hfu
      have hnd : (E.map Prod.fst).Nodup := suggest_entries_nodup d aid u E hfu
      have hreapply : applyEntries (applyEntries w E) E = applyEntries w E := by
        apply applyEntries_self
        intro e he
        have := applyEntries_get_of_nodup w E hnd e he
        exact this
      by_cases hm : hashMatches d w
      · have hcnil : collectAtTypes w.manifest aid = [] := by
          rcases (suggestFor_eq_none_iff d aid w).mp hfw with hnm | hcnil
          · exact absurd hm hnm
          · exact hcnil
        obtain ⟨_, hEcol, hEne⟩ := (suggestFor_eq_some_iff d aid u E).mp hfu
        have hwnil : ∀ t : DepKind, mapGet (w.manifest.getKind t) aid = none :=
          (collectAtTypes_eq_nil_iff w.manifest aid).mp hcnil
        have hcol1 : collectAtTypes (applyEntries w E).manifest aid = E :=
          collect_applyEntries w u.manifest aid E hwnil hEcol hl
        have hfw1 : suggestFor d aid (applyEntries w E) = some E := by
          rw [suggestFor_eq_some_iff]
          exact ⟨(hashMatches_applyEntries d aid w E hl hne).mpr hm, hcol1.symm, hEne⟩
        exact ⟨by rw [findSome_cons, hfw1], hreapply⟩
      · have hfw1 : suggestFor d aid (applyEntries w E) = none := by
          rw [suggestFor_eq_none_iff]
          left
          intro hc
          exact hm ((hashMatches_applyEntries d aid w E hl hne).mp hc)
        exact ⟨by rw [findSome_cons, hfw1]; exact hscan, hreapply⟩
  | cons u before ih =>
    intro w after E hwf hscan
    rw [List.cons_append] at hscan ⊢
    rw [findSome_cons] at hscan
    cases hfu : suggestFor d aid u with
    | some E0 =>
      rw [hfu] at hscan
      injection hscan with hEq
      rw [hEq] at hfu
      have hnd : (E.map Prod.fst).Nodup := suggest_entries_nodup d aid u E hfu
      refine ⟨by rw [findSome_cons, hfu], ?_⟩
      apply applyEntries_self
      intro e he
      exact applyEntries_get_of_nodup w E hnd e he
    | none =>
      rw [hfu] at hscan
      obtain ⟨h1, h2⟩ := ih w after E (fun x hx => hwf x (List.mem_cons_of_mem _ hx)) hscan
      exact ⟨by rw [findSome_cons, hfu]; exact h1, h2⟩

/-! ### Further helpers -/

theorem findSome_exists (f : α → Option β) (l : List α) (a : α) (ha : a ∈ l)
    (hfa : f a ≠ none) : ∃ b, List.findSome? f l = some b := by
  induction l with
  | nil => cases ha
  | cons x l ih =>
    rw [findSome_cons]
    cases hfx : f x with
    | some b => exact ⟨b, rfl⟩
    | none =>
      rcases List.mem_cons.mp ha with rfl | ha
      · exact absurd hfx hfa
      · exact ih ha

theorem okEq_middle (before after : List Workspace) (x y : Workspace)
    (h : (Except.ok (before ++ x :: after) : Except Unit (List Workspace)) =
      .ok (before ++ y :: after)) : x = y := by
  injection h with h
  have hmid := List.append_cancel_left h
  injection hmid with h1 h2

theorem findSome_eq_none_forall (f : α → Option β) (l : List α)
    (h : List.findSome? f l = none) : ∀ a ∈ l, f a = none := by
  induction l with
  | nil => intro a ha; cases ha
  | cons x l ih =>
    rw [findSome_cons] at h
    cases hfx : f x with
    | some b => rw [hfx] at h; cases h
    | none =>
      rw [hfx] at h
      intro a ha
      rcases List.mem_cons.mp ha with rfl | ha
      · exact hfx
      · exact ih h a ha





/-! ### The claims -/

/-- C1 counterexample: a workspace whose `tsconfig.json` exists and parses,
whose computed reference list is `["b"]` while the existing reference list is
`["b", "c"]` — the two differ in membership (the claim then requires a
rewrite), yet the synchronizer performs no write at all and leaves the
filesystem untouched. -/
theorem claim_C1_counterexample :
    fsRead c1Fs c1W0.cwd = some ⟨some ["b", "c"], ""⟩ ∧
    referencedWorkspaces c1Ext [c1W0, c1W1] 0 c1W0 = ["b"] ∧
    refSetsDiffer ["b"] ["b", "c"] = true ∧
    (afterAllInstalled c1Ext [c1W0, c1W1] c1Fs).2 = [] ∧
    (afterAllInstalled c1Ext [c1W0, c1W1] c1Fs).1 = c1Fs :=
  ⟨rfl, rfl, rfl, rfl, rfl⟩

/-- C1 (amended): for every workspace whose configuration document exists and
parses, the document is persisted iff either the computed reference list is
non-empty and contains a path absent from the document's existing reference
list, or the computed list is empty while the `references` field is present.
(Membership is tested in one direction only: an existing list that is a
strict superset of a non-empty computed set is NOT rewritten.) -/
theorem claim_C1 (ext : SyncExt) (ws : List Workspace) (fs : Fs) (wi : Nat)
    (w : Workspace) (t : TsConfig) (h : fsRead fs w.cwd = some t) :
    (syncOne ext ws fs wi w).2 = true ↔
      (referencedWorkspaces ext ws wi w ≠ [] ∧
        (referencedWorkspaces ext ws wi w).any
          (fun p => !((t.references.getD []).contains p)) = true) ∨
      (referencedWorkspaces ext ws wi w = [] ∧ t.references ≠ none) := by
  cases hrefs : referencedWorkspaces ext ws wi w with
  | nil =>
    cases hr : t.references with
    | none =>
      rw [syncOne_some_nil_none ext ws fs wi w t h hrefs hr]
      simp [hrefs, hr]
    | some x =>
      rw [syncOne_some_nil_some ext ws fs wi w t x h hrefs hr]
      simp [hrefs, hr]
  | cons p ps =>
    cases hany : (p :: ps).any (fun q => !((t.references.getD []).contains q)) with
    | true =>
      rw [syncOne_some_cons_changed ext ws fs wi w t p ps h hrefs hany]
      simp [hrefs, hany]
    | false =>
      rw [syncOne_some_cons_same ext ws fs wi w t p ps h hrefs hany]
      simp [hrefs, hany]

/-- C1 witness: the amended persistence criterion evaluated on the concrete
scenario of the counterexample. -/
theorem claim_C1_witness :
    ((syncOne c1Ext [c1W0, c1W1] c1Fs 0 c1W0).2 = true ↔
      (referencedWorkspaces c1Ext [c1W0, c1W1] 0 c1W0 ≠ [] ∧
        (referencedWorkspaces c1Ext [c1W0, c1W1] 0 c1W0).any
          (fun p =>
            !(((⟨some ["b", "c"], ""⟩ : TsConfig).references.getD []).contains p)) = true) ∨
      (referencedWorkspaces c1Ext [c1W0, c1W1] 0 c1W0 = [] ∧
        (⟨some ["b", "c"], ""⟩ : TsConfig).references ≠ none)) :=
  claim_C1 c1Ext [c1W0, c1W1] c1Fs 0 c1W0 ⟨some ["b", "c"], ""⟩ rfl




/-- C2 counterexample: an original dependency with a tag specifier (not a
valid semver range), a declarations predicate requiring a companion, and a
resolver whose query for the tag rejects — the addition hook does not
complete: the error propagates to the caller. -/
theorem claim_C2_counterexample :
    c2Desc.scope ≠ some "types" ∧
    c2Ext.hasDefinitelyTyped c2Desc = true ∧
    c2Ext.validRange (c2Ext.parseRangeSelector c2Desc.range) = false ∧
    c2Ext.getCandidates c2Desc = none ∧
    (afterWorkspaceDependencyAddition c2Ext [] c2Ws [] c2Desc).outcome = .error () :=
  ⟨by decide, rfl, rfl, rfl, rfl⟩

/-- C2 (amended): when the original specifier is not a valid semver range and
the resolver query for the tag rejects or returns zero candidates, the
addition hook adds no companion dependency but the failure propagates to the
caller as a hard error (only the later feasibility probe of the companion
descriptor downgrades failure to a silent no-companion return). -/
theorem claim_C2 (ext : AddExt) (before : List Workspace) (w : Workspace)
    (after : List Workspace) (d : Desc) (h1 : ¬d.scope = some "types")
    (h2 : ext.hasDefinitelyTyped d = true)
    (hv : ext.validRange (ext.parseRangeSelector d.range) = false)
    (hc : ext.getCandidates d = none ∨ ext.getCandidates d = some []) :
    (afterWorkspaceDependencyAddition ext before w after d).outcome = .error () ∧
    (afterWorkspaceDependencyAddition ext before w after d).queries = [d] := by
  have h3 : chosenSelector ext d = .error () := by
    rw [chosenSelector, if_neg (by rw [hv]; simp)]
    rcases hc with hc | hc <;> rw [hc]
  rw [addition_selector_error ext before w after d h1 h2 h3]
  exact ⟨rfl, by rw [if_neg (by rw [hv]; simp)]⟩

/-- C2 witness: the amended behavior on the concrete rejecting resolver. -/
theorem claim_C2_witness :
    (afterWorkspaceDependencyAddition c2Ext [] c2Ws [] c2Desc).outcome = .error () ∧
    (afterWorkspaceDependencyAddition c2Ext [] c2Ws [] c2Desc).queries = [c2Desc] :=
  claim_C2 c2Ext [] c2Ws [] c2Desc (by decide) rfl rfl (Or.inl rfl)

/-- C5: the selector used for coercion is the original range's parsed
selector when it is a valid semver range, and otherwise the parsed selector
of the resolver's first candidate; when coercion fails the hook completes
without error and without touching any workspace; and the companion range is
the caret range on the coerced major. -/
theorem claim_C5 (ext : AddExt) (d : Desc) (h1 : ¬d.scope = some "types")
    (h2 : ext.hasDefinitelyTyped d = true) :
    (ext.validRange (ext.parseRangeSelector d.range) = true →
      chosenSelector ext d = .ok (ext.parseRangeSelector d.range)) ∧
    (∀ c cs, ext.validRange (ext.parseRangeSelector d.range) = false →
      ext.getCandidates d = some (c :: cs) →
      chosenSelector ext d = .ok (ext.parseRangeSelector c)) ∧
    (∀ sel, chosenSelector ext d = .ok sel → ext.coerce sel = none →
      ∀ (before : List Workspace) (w : Workspace) (after : List Workspace),
        (afterWorkspaceDependencyAddition ext before w after d).outcome =
          .ok (before ++ w :: after)) ∧
    (∀ major : Nat, (companionDescriptor d major).range = "^" ++ toString major) := by
  refine ⟨?_, ?_, ?_, fun major => rfl⟩
  · intro hv
    rw [chosenSelector, if_pos hv]
  · intro c cs hv hc
    rw [chosenSelector, if_neg (by rw [hv]; simp), hc]
  · intro sel h3 h4 before w after
    rw [addition_coerce_none ext before w after d sel h1 h2 h3 h4]

/-- C5 witness: a concrete `4.2.1` original version yields the companion
range `^4`, and a failed coercion leaves the workspace list unchanged. -/
theorem claim_C5_witness :
    ((AddExt.mk (fun _ => true) (fun _ => some []) (fun r => r) (fun r => r = "4.2.1")
        (fun r => if r = "4.2.1" then some 4 else none)).validRange
      ((AddExt.mk (fun _ => true) (fun _ => some []) (fun r => r) (fun r => r = "4.2.1")
        (fun r => if r = "4.2.1" then some 4 else none)).parseRangeSelector
          (Desc.mk none "foo" "4.2.1").range) = true →
      chosenSelector
        (AddExt.mk (fun _ => true) (fun _ => some []) (fun r => r) (fun r => r = "4.2.1")
          (fun r => if r = "4.2.1" then some 4 else none)) (Desc.mk none "foo" "4.2.1") =
        .ok ((AddExt.mk (fun _ => true) (fun _ => some []) (fun r => r) (fun r => r = "4.2.1")
          (fun r => if r = "4.2.1" then some 4 else none)).parseRangeSelector
            (Desc.mk none "foo" "4.2.1").range)) ∧
    (∀ c cs, (AddExt.mk (fun _ => true) (fun _ => some []) (fun r => r) (fun r => r = "4.2.1")
        (fun r => if r = "4.2.1" then some 4 else none)).validRange
      ((AddExt.mk (fun _ => true) (fun _ => some []) (fun r => r) (fun r => r = "4.2.1")
        (fun r => if r = "4.2.1" then some 4 else none)).parseRangeSelector
          (Desc.mk none "foo" "4.2.1").range) = false →
      (AddExt.mk (fun _ => true) (fun _ => some []) (fun r => r) (fun r => r = "4.2.1")
        (fun r => if r = "4.2.1" then some 4 else none)).getCandidates
          (Desc.mk none "foo" "4.2.1") = some (c :: cs) →
      chosenSelector
        (AddExt.mk (fun _ => true) (fun _ => some []) (fun r => r) (fun r => r = "4.2.1")
          (fun r => if r = "4.2.1" then some 4 else none)) (Desc.mk none "foo" "4.2.1") =
        .ok ((AddExt.mk (fun _ => true) (fun _ => some []) (fun r => r) (fun r => r = "4.2.1")
          (fun r => if r = "4.2.1" then some 4 else none)).parseRangeSelector c)) ∧
    (∀ sel, chosenSelector
        (AddExt.mk (fun _ => true) (fun _ => some []) (fun r => r) (fun r => r = "4.2.1")
          (fun r => if r = "4.2.1" then some 4 else none)) (Desc.mk none "foo" "4.2.1") =
          .ok sel →
      (AddExt.mk (fun _ => true) (fun _ => some []) (fun r => r) (fun r => r = "4.2.1")
        (fun r => if r = "4.2.1" then some 4 else none)).coerce sel = none →
      ∀ (before : List Workspace) (w : Workspace) (after : List Workspace),
        (afterWorkspaceDependencyAddition
          (AddExt.mk (fun _ => true) (fun _ => some []) (fun r => r) (fun r => r = "4.2.1")
            (fun r => if r = "4.2.1" then some 4 else none)) before w after
          (Desc.mk none "foo" "4.2.1")).outcome = .ok (before ++ w :: after)) ∧
    (∀ major : Nat,
      (companionDescriptor (Desc.mk none "foo" "4.2.1") major).range = "^" ++ toString major) :=
  claim_C5
    (AddExt.mk (fun _ => true) (fun _ => some []) (fun r => r) (fun r => r = "4.2.1")
      (fun r => if r = "4.2.1" then some 4 else none))
    (Desc.mk none "foo" "4.2.1") (by decide) rfl

/-- C6: for an original descriptor outside the companion scope, the removal
hook deletes the companion ident from every dependency-collection kind and
leaves every other entry of every kind unchanged (it consults neither the
other workspaces nor the resolver: it is a function of the one workspace and
the descriptor alone). -/
theorem claim_C6 (w : Workspace) (d : Desc) (h : ¬d.scope = some "types") :
    (∀ t : DepKind,
      mapGet ((afterWorkspaceDependencyRemoval w d).manifest.getKind t)
        (some "types", getTypesName d) = none) ∧
    (∀ (t : DepKind) (k : IdentKey), k ≠ (some "types", getTypesName d) →
      mapGet ((afterWorkspaceDependencyRemoval w d).manifest.getKind t) k =
        mapGet (w.manifest.getKind t) k) := by
  rw [removal_not_types w d h]
  constructor
  · intro t
    rw [removeFold_get, if_pos ⟨depKind_mem_allDependencies t, rfl⟩]
  · intro t k hk
    rw [removeFold_get, if_neg (fun hc => hk hc.2)]

/-- C6 witness: removal on a concrete workspace holding companion entries in
two kinds. -/
theorem claim_C6_witness :
    (∀ t : DepKind,
      mapGet ((afterWorkspaceDependencyRemoval
        ⟨"a", [], ⟨[((some "types", "foo"), ⟨some "types", "foo", "^2"⟩)],
          [((some "types", "foo"), ⟨some "types", "foo", "^3"⟩),
           ((none, "bar"), ⟨none, "bar", "1"⟩)], [], []⟩⟩
        ⟨none, "foo", "^2.0.0"⟩).manifest.getKind t)
        (some "types", getTypesName ⟨none, "foo", "^2.0.0"⟩) = none) ∧
    (∀ (t : DepKind) (k : IdentKey),
      k ≠ (some "types", getTypesName ⟨none, "foo", "^2.0.0"⟩) →
      mapGet ((afterWorkspaceDependencyRemoval
        ⟨"a", [], ⟨[((some "types", "foo"), ⟨some "types", "foo", "^2"⟩)],
          [((some "types", "foo"), ⟨some "types", "foo", "^3"⟩),
           ((none, "bar"), ⟨none, "bar", "1"⟩)], [], []⟩⟩
        ⟨none, "foo", "^2.0.0"⟩).manifest.getKind t) k =
        mapGet ((Workspace.mk "a" []
          ⟨[((some "types", "foo"), ⟨some "types", "foo", "^2"⟩)],
          [((some "types", "foo"), ⟨some "types", "foo", "^3"⟩),
           ((none, "bar"), ⟨none, "bar", "1"⟩)], [], []⟩).manifest.getKind t) k) :=
  claim_C6
    ⟨"a", [], ⟨[((some "types", "foo"), ⟨some "types", "foo", "^2"⟩)],
      [((some "types", "foo"), ⟨some "types", "foo", "^3"⟩),
       ((none, "bar"), ⟨none, "bar", "1"⟩)], [], []⟩⟩
    ⟨none, "foo", "^2.0.0"⟩ (by decide)

/-- C7: running the reference synchronizer twice in succession on the same
project (workspace roots pairwise distinct, as in any real project), with no
dependency change in between, performs no write during the second run and
leaves the filesystem of the first run untouched. -/
theorem claim_C7 (ext : SyncExt) (ws : List Workspace) (fs : Fs)
    (h : (ws.map Workspace.cwd).Nodup) :
    (afterAllInstalled ext ws (afterAllInstalled ext ws fs).1).2 = [] ∧
    (afterAllInstalled ext ws (afterAllInstalled ext ws fs).1).1 =
      (afterAllInstalled ext ws fs).1 := by
  have hgood : ∀ (k : Nat) (w0 : Workspace), ws[k]? = some w0 →
      goodDoc ext ws (0 + k) w0 (afterAllInstalled ext ws fs).1 := by
    intro k w0 hk
    exact syncAll_good ext ws 0 ws fs h k w0 hk
  have hrun : syncAll ext ws 0 ws (afterAllInstalled ext ws fs).1 =
      ((afterAllInstalled ext ws fs).1, []) :=
    syncAll_of_good ext ws 0 ws _ hgood
  constructor
  · show (syncAll ext ws 0 ws (afterAllInstalled ext ws fs).1).2 = []
    rw [hrun]
  · show (syncAll ext ws 0 ws (afterAllInstalled ext ws fs).1).1 =
      (afterAllInstalled ext ws fs).1
    rw [hrun]

/-- C7 witness: the double run on a concrete two-workspace project whose
first run does write. -/
theorem claim_C7_witness :
    (afterAllInstalled c1Ext [c1W0, c1W1]
        (afterAllInstalled c1Ext [c1W0, c1W1] [("a", ⟨some ["c"], ""⟩)]).1).2 = [] ∧
    (afterAllInstalled c1Ext [c1W0, c1W1]
        (afterAllInstalled c1Ext [c1W0, c1W1] [("a", ⟨some ["c"], ""⟩)]).1).1 =
      (afterAllInstalled c1Ext [c1W0, c1W1] [("a", ⟨some ["c"], ""⟩)]).1 :=
  claim_C7 c1Ext [c1W0, c1W1] [("a", ⟨some ["c"], ""⟩)] (by decide)

/-- C8: the companion identity of a scoped original `@scope/name` is the
flat name `scope__name` under the companion `types` scope, an unscoped name
keeps its name under that scope; both hooks are no-ops for any descriptor
already in the companion scope, and in particular for every companion
descriptor, so the derivation is never applied twice. -/
theorem claim_C8 :
    (∀ s n r : String, getTypesName ⟨some s, n, r⟩ = s ++ "__" ++ n) ∧
    (∀ n r : String, getTypesName ⟨none, n, r⟩ = n) ∧
    (∀ (d : Desc) (major : Nat), (companionDescriptor d major).scope = some "types") ∧
    (∀ (ext : AddExt) (before : List Workspace) (w : Workspace) (after : List Workspace)
      (n r : String),
      afterWorkspaceDependencyAddition ext before w after ⟨some "types", n, r⟩ =
        ⟨.ok (before ++ w :: after), []⟩) ∧
    (∀ (w : Workspace) (n r : String),
      afterWorkspaceDependencyRemoval w ⟨some "types", n, r⟩ = w) ∧
    (∀ (ext : AddExt) (before : List Workspace) (w : Workspace) (after : List Workspace)
      (d : Desc) (major : Nat),
      afterWorkspaceDependencyAddition ext before w after (companionDescriptor d major) =
        ⟨.ok (before ++ w :: after), []⟩) := by
  refine ⟨fun s n r => rfl, fun n r => rfl, fun d major => rfl, ?_, ?_, ?_⟩
  · intro ext before w after n r
    exact addition_scope_types ext before w after _ rfl
  · intro w n r
    rw [afterWorkspaceDependencyRemoval, if_pos rfl]
  · intro ext before w after d major
    exact addition_scope_types ext before w after _ rfl

/-- C3: when the guards of the addition hook pass and some workspace of the
project both depends on the original package by the identical descriptor
hash and holds at least one companion entry, the triggering workspace
receives the scanned workspace's existing companion entries (each stored
descriptor under its stored dependency kind) instead of the freshly computed
caret range, and no feasibility probe of the companion descriptor is ever
issued to the resolver. -/
theorem claim_C3 (ext : AddExt) (before : List Workspace) (w : Workspace)
    (after : List Workspace) (d : Desc) (sel : String) (major : Nat) (wq : Workspace)
    (e0 : List (DepKind × Desc))
    (h1 : ¬d.scope = some "types") (h2 : ext.hasDefinitelyTyped d = true)
    (h3 : chosenSelector ext d = .ok sel) (h4 : ext.coerce sel = some major)
    (hwq : wq ∈ before ++ w :: after)
    (hsq : suggestFor d (identHash (companionDescriptor d major)) wq = some e0) :
    ∃ entries : List (DepKind × Desc),
      (∃ wq1 ∈ before ++ w :: after,
        suggestFor d (identHash (companionDescriptor d major)) wq1 = some entries) ∧
      (afterWorkspaceDependencyAddition ext before w after d).outcome =
        .ok (before ++ applyEntries w entries :: after) ∧
      (∀ e ∈ entries,
        mapGet ((applyEntries w entries).manifest.getKind e.1) (identHash e.2) = some e.2) ∧
      companionDescriptor d major ∉ (afterWorkspaceDependencyAddition ext before w after d).queries := by
  obtain ⟨entries, hscan⟩ :=
    findSome_exists (suggestFor d (identHash (companionDescriptor d major)))
      (before ++ w :: after) wq hwq (by rw [hsq]; exact fun hc => Option.noConfusion hc)
  obtain ⟨wq1, hwq1, hsq1⟩ := findSome_mem _ _ _ hscan
  have hnd := suggest_entries_nodup d _ wq1 entries hsq1
  have htq : companionDescriptor d major ∉
      (if ext.validRange (ext.parseRangeSelector d.range) = true then ([] : List Desc)
       else [d]) := by
    cases hv : ext.validRange (ext.parseRangeSelector d.range) with
    | true => simp
    | false =>
      simp only [Bool.false_eq_true, if_false]
      intro hmem
      rw [List.mem_singleton] at hmem
      apply h1
      rw [← hmem]
      rfl
  rw [addition_coerce_some ext before w after d sel major h1 h2 h3 h4,
    reconcile_scan_some ext before w after d _ _ entries hscan]
  refine ⟨entries, ⟨wq1, hwq1, hsq1⟩, rfl, ?_, htq⟩
  intro e he
  exact applyEntries_get_of_nodup w entries hnd e he





/-- C3 witness: the propagation scenario evaluated on the concrete sibling. -/
theorem claim_C3_witness :
    ∃ entries : List (DepKind × Desc),
      (∃ wq1 ∈ [] ++ c3W :: [c3Sib],
        suggestFor c3Desc (identHash (companionDescriptor c3Desc 2)) wq1 = some entries) ∧
      (afterWorkspaceDependencyAddition c3Ext [] c3W [c3Sib] c3Desc).outcome =
        .ok ([] ++ applyEntries c3W entries :: [c3Sib]) ∧
      (∀ e ∈ entries,
        mapGet ((applyEntries c3W entries).manifest.getKind e.1) (identHash e.2) = some e.2) ∧
      companionDescriptor c3Desc 2 ∉
        (afterWorkspaceDependencyAddition c3Ext [] c3W [c3Sib] c3Desc).queries :=
  claim_C3 c3Ext [] c3W [c3Sib] c3Desc "^2.0.0" 2 c3Sib
    [(DepKind.peer, ⟨some "types", "foo", "^1.5"⟩)]
    (by decide) rfl rfl rfl (by simp) rfl

/-- C4: when the guards pass and no workspace qualifies for propagation, a
rejecting or empty-candidate feasibility probe leaves every workspace
unchanged, while a successful probe inserts the companion descriptor into the
triggering workspace's development collection only — every other kind and
every other key is untouched — and the probe of the companion descriptor is
always issued. -/
theorem claim_C4 (ext : AddExt) (before : List Workspace) (w : Workspace)
    (after : List Workspace) (d : Desc) (sel : String) (major : Nat)
    (h1 : ¬d.scope = some "types") (h2 : ext.hasDefinitelyTyped d = true)
    (h3 : chosenSelector ext d = .ok sel) (h4 : ext.coerce sel = some major)
    (hscan : ∀ u ∈ before ++ w :: after,
      suggestFor d (identHash (companionDescriptor d major)) u = none) :
    (ext.getCandidates (companionDescriptor d major) = none →
      (afterWorkspaceDependencyAddition ext before w after d).outcome =
        .ok (before ++ w :: after)) ∧
    (ext.getCandidates (companionDescriptor d major) = some [] →
      (afterWorkspaceDependencyAddition ext before w after d).outcome =
        .ok (before ++ w :: after)) ∧
    (∀ c cs, ext.getCandidates (companionDescriptor d major) = some (c :: cs) →
      ∃ w1 : Workspace,
        (afterWorkspaceDependencyAddition ext before w after d).outcome =
          .ok (before ++ w1 :: after) ∧
        mapGet (w1.manifest.getKind .development) (identHash (companionDescriptor d major)) =
          some (companionDescriptor d major) ∧
        (∀ t : DepKind, t ≠ .development → w1.manifest.getKind t = w.manifest.getKind t) ∧
        (∀ k : IdentKey, k ≠ identHash (companionDescriptor d major) →
          mapGet (w1.manifest.getKind .development) k =
            mapGet (w.manifest.getKind .development) k)) ∧
    companionDescriptor d major ∈ (afterWorkspaceDependencyAddition ext before w after d).queries := by
  have hfs : (before ++ w :: after).findSome?
      (suggestFor d (identHash (companionDescriptor d major))) = none :=
    findSome_eq_none_of _ _ hscan
  rw [addition_coerce_some ext before w after d sel major h1 h2 h3 h4]
  refine ⟨?_, ?_, ?_, ?_⟩
  · intro hc
    rw [reconcile_probe_error ext before w after d _ _ hfs hc]
  · intro hc
    rw [reconcile_probe_empty ext before w after d _ _ hfs hc]
  · intro c cs hc
    rw [reconcile_probe_found ext before w after d _ _ c cs hfs hc]
    refine ⟨setDevCompanion w (companionDescriptor d major), rfl, ?_, ?_, ?_⟩
    · exact setDevCompanion_get_dev w (companionDescriptor d major)
    · intro t ht
      exact setDevCompanion_getKind_ne w (companionDescriptor d major) t ht
    · intro k hk
      exact setDevCompanion_get_ne w (companionDescriptor d major) .development k hk
  · cases hc : ext.getCandidates (companionDescriptor d major) with
    | none =>
      rw [reconcile_probe_error ext before w after d _ _ hfs hc]
      exact List.mem_append_right _ (List.mem_cons_self _ _)
    | some cands =>
      cases cands with
      | nil =>
        rw [reconcile_probe_empty ext before w after d _ _ hfs hc]
        exact List.mem_append_right _ (List.mem_cons_self _ _)
      | cons c cs =>
        rw [reconcile_probe_found ext before w after d _ _ c cs hfs hc]
        exact List.mem_append_right _ (List.mem_cons_self _ _)

/-- C4 witness: the fresh-addition scenario evaluated on a project with no
qualifying sibling and a resolver that confirms the companion. -/
theorem claim_C4_witness :
    ((AddExt.mk (fun _ => true)
        (fun d0 => if d0.scope = some "types" then some ["ok"] else some [])
        (fun r => r) (fun r => r = "^2.0.0")
        (fun r => if r = "^2.0.0" then some 2 else none)).getCandidates
      (companionDescriptor ⟨none, "foo", "^2.0.0"⟩ 2) = none →
      (afterWorkspaceDependencyAddition
        (AddExt.mk (fun _ => true)
          (fun d0 => if d0.scope = some "types" then some ["ok"] else some [])
          (fun r => r) (fun r => r = "^2.0.0")
          (fun r => if r = "^2.0.0" then some 2 else none))
        [] ⟨"a", [], ⟨[], [], [], []⟩⟩ [] ⟨none, "foo", "^2.0.0"⟩).outcome =
        .ok ([] ++ ⟨"a", [], ⟨[], [], [], []⟩⟩ :: [])) ∧
    ((AddExt.mk (fun _ => true)
        (fun d0 => if d0.scope = some "types" then some ["ok"] else some [])
        (fun r => r) (fun r => r = "^2.0.0")
        (fun r => if r = "^2.0.0" then some 2 else none)).getCandidates
      (companionDescriptor ⟨none, "foo", "^2.0.0"⟩ 2) = some [] →
      (afterWorkspaceDependencyAddition
        (AddExt.mk (fun _ => true)
          (fun d0 => if d0.scope = some "types" then some ["ok"] else some [])
          (fun r => r) (fun r => r = "^2.0.0")
          (fun r => if r = "^2.0.0" then some 2 else none))
        [] ⟨"a", [], ⟨[], [], [], []⟩⟩ [] ⟨none, "foo", "^2.0.0"⟩).outcome =
        .ok ([] ++ ⟨"a", [], ⟨[], [], [], []⟩⟩ :: [])) ∧
    (∀ c cs, (AddExt.mk (fun _ => true)
        (fun d0 => if d0.scope = some "types" then some ["ok"] else some [])
        (fun r => r) (fun r => r = "^2.0.0")
        (fun r => if r = "^2.0.0" then some 2 else none)).getCandidates
      (companionDescriptor ⟨none, "foo", "^2.0.0"⟩ 2) = some (c :: cs) →
      ∃ w1 : Workspace,
        (afterWorkspaceDependencyAddition
          (AddExt.mk (fun _ => true)
            (fun d0 => if d0.scope = some "types" then some ["ok"] else some [])
            (fun r => r) (fun r => r = "^2.0.0")
            (fun r => if r = "^2.0.0" then some 2 else none))
          [] ⟨"a", [], ⟨[], [], [], []⟩⟩ [] ⟨none, "foo", "^2.0.0"⟩).outcome =
          .ok ([] ++ w1 :: []) ∧
        mapGet (w1.manifest.getKind .development)
          (identHash (companionDescriptor ⟨none, "foo", "^2.0.0"⟩ 2)) =
          some (companionDescriptor ⟨none, "foo", "^2.0.0"⟩ 2) ∧
        (∀ t : DepKind, t ≠ .development →
          w1.manifest.getKind t =
            (Workspace.mk "a" [] ⟨[], [], [], []⟩).manifest.getKind t) ∧
        (∀ k : IdentKey, k ≠ identHash (companionDescriptor ⟨none, "foo", "^2.0.0"⟩ 2) →
          mapGet (w1.manifest.getKind .development) k =
            mapGet ((Workspace.mk "a" [] ⟨[], [], [], []⟩).manifest.getKind .development) k)) ∧
    companionDescriptor ⟨none, "foo", "^2.0.0"⟩ 2 ∈
      (afterWorkspaceDependencyAddition
        (AddExt.mk (fun _ => true)
          (fun d0 => if d0.scope = some "types" then some ["ok"] else some [])
          (fun r => r) (fun r => r = "^2.0.0")
          (fun r => if r = "^2.0.0" then some 2 else none))
        [] ⟨"a", [], ⟨[], [], [], []⟩⟩ [] ⟨none, "foo", "^2.0.0"⟩).queries :=
  claim_C4
    (AddExt.mk (fun _ => true)
      (fun d0 => if d0.scope = some "types" then some ["ok"] else some [])
      (fun r => r) (fun r => r = "^2.0.0")
      (fun r => if r = "^2.0.0" then some 2 else none))
    [] ⟨"a", [], ⟨[], [], [], []⟩⟩ [] ⟨none, "foo", "^2.0.0"⟩ "^2.0.0" 2
    (by decide) rfl rfl rfl
    (by
      intro u hu
      rcases List.mem_append.mp hu with hu | hu
      · cases hu
      · rcases List.mem_cons.mp hu with rfl | hu
        · rfl
        · cases hu)

/-- C10: companion entries are copied from exactly the first workspace, in
the project's iteration order, that qualifies (identical original descriptor
hash plus at least one companion entry): every earlier workspace was skipped,
the outcome applies precisely the first qualifier's entries regardless of
what any later workspace holds, and a workspace with a matching hash but no
companion entry is skipped. -/
theorem claim_C10 (ext : AddExt) (l1 : List Workspace) (wq : Workspace) (l2 : List Workspace)
    (before : List Workspace) (w : Workspace) (after : List Workspace) (d : Desc)
    (sel : String) (major : Nat) (e0 : List (DepKind × Desc))
    (h1 : ¬d.scope = some "types") (h2 : ext.hasDefinitelyTyped d = true)
    (h3 : chosenSelector ext d = .ok sel) (h4 : ext.coerce sel = some major)
    (hsplit : before ++ w :: after = l1 ++ wq :: l2)
    (hskip : ∀ u ∈ l1, suggestFor d (identHash (companionDescriptor d major)) u = none)
    (hfound : suggestFor d (identHash (companionDescriptor d major)) wq = some e0) :
    (afterWorkspaceDependencyAddition ext before w after d).outcome =
      .ok (before ++ applyEntries w e0 :: after) ∧
    (∀ u : Workspace,
      collectAtTypes u.manifest (identHash (companionDescriptor d major)) = [] →
      suggestFor d (identHash (companionDescriptor d major)) u = none) := by
  have hscan : (before ++ w :: after).findSome?
      (suggestFor d (identHash (companionDescriptor d major))) = some e0 := by
    rw [hsplit]
    exact findSome_first _ l1 wq l2 e0 hskip hfound
  rw [addition_coerce_some ext before w after d sel major h1 h2 h3 h4,
    reconcile_scan_some ext before w after d _ _ e0 hscan]
  refine ⟨rfl, ?_⟩
  intro u hu
  rw [suggestFor_eq_none_iff]
  right
  exact hu

/-- C10 witness: the first-qualifier scenario with a skipped workspace ahead
of the qualifier (matching hash, no companion entry). -/
theorem claim_C10_witness :
    (afterWorkspaceDependencyAddition c3Ext []
        ⟨"a", [], ⟨[((none, "foo"), ⟨none, "foo", "^2.0.0"⟩)], [], [], []⟩⟩ [c3Sib]
        c3Desc).outcome =
      .ok ([] ++ applyEntries
          ⟨"a", [], ⟨[((none, "foo"), ⟨none, "foo", "^2.0.0"⟩)], [], [], []⟩⟩
          [(DepKind.peer, ⟨some "types", "foo", "^1.5"⟩)] :: [c3Sib]) ∧
    (∀ u : Workspace,
      collectAtTypes u.manifest (identHash (companionDescriptor c3Desc 2)) = [] →
      suggestFor c3Desc (identHash (companionDescriptor c3Desc 2)) u = none) :=
  claim_C10 c3Ext
    [⟨"a", [], ⟨[((none, "foo"), ⟨none, "foo", "^2.0.0"⟩)], [], [], []⟩⟩] c3Sib []
    [] ⟨"a", [], ⟨[((none, "foo"), ⟨none, "foo", "^2.0.0"⟩)], [], [], []⟩⟩ [c3Sib]
    c3Desc "^2.0.0" 2 [(DepKind.peer, ⟨some "types", "foo", "^1.5"⟩)]
    (by decide) rfl rfl rfl rfl
    (by
      intro u hu
      rcases List.mem_cons.mp hu with rfl | hu
      · rfl
      · cases hu)
    rfl

/-- A feasibility probe that succeeds on a workspace already holding the
companion descriptor in its development collection re-inserts the identical
entry, which is a no-op. -/
theorem probe_step_idem (ext : AddExt) (before : List Workspace) (wd : Workspace)
    (after : List Workspace) (d atT : Desc) (tq : List Desc) (c : String) (cs : List String)
    (hdev : mapGet (wd.manifest.getKind .development) (identHash atT) = some atT)
    (hscan2 : (before ++ wd :: after).findSome? (suggestFor d (identHash atT)) = none)
    (hc : ext.getCandidates atT = some (c :: cs)) :
    (reconcileCompanion ext before wd after d atT tq).outcome = .ok (before ++ wd :: after) := by
  rw [reconcile_probe_found ext before wd after d atT tq c cs hscan2 hc,
    setDevCompanion_noop wd atT hdev]

/-- C9: the addition hook is idempotent.  With the external declarations
predicate and the resolver answering identically (they are fixed functions of
the descriptor) and well-formed manifests (each entry stored under the ident
hash of its own descriptor, as yarn maintains), a completed first run
producing the workspace list `before ++ w1 :: after` is reproduced exactly by
a second run triggered on the updated workspace. -/
theorem claim_C9 (ext : AddExt) (before : List Workspace) (w : Workspace)
    (after : List Workspace) (d : Desc) (w1 : Workspace)
    (hwf : ∀ u ∈ before ++ w :: after, WfWorkspace u)
    (h1 : (afterWorkspaceDependencyAddition ext before w after d).outcome =
      .ok (before ++ w1 :: after)) :
    (afterWorkspaceDependencyAddition ext before w1 after d).outcome =
      .ok (before ++ w1 :: after) := by
  by_cases hscope : d.scope = some "types"
  · rw [addition_scope_types ext before w after d hscope] at h1
    have h1x : (Except.ok (before ++ w :: after) : Except Unit (List Workspace)) =
      .ok (before ++ w1 :: after) := h1
    have hw : w = w1 := okEq_middle before after w w1 h1x
    subst hw
    rw [addition_scope_types ext before w after d hscope]
  · cases hdt : ext.hasDefinitelyTyped d with
    | false =>
      rw [addition_no_types_needed ext before w after d hscope hdt] at h1
      have h1x : (Except.ok (before ++ w :: after) : Except Unit (List Workspace)) =
        .ok (before ++ w1 :: after) := h1
      have hw : w = w1 := okEq_middle before after w w1 h1x
      subst hw
      rw [addition_no_types_needed ext before w after d hscope hdt]
    | true =>
      cases hsel : chosenSelector ext d with
      | error u =>
        cases u
        rw [addition_selector_error ext before w after d hscope hdt hsel] at h1
        have h1x : (Except.error () : Except Unit (List Workspace)) =
          .ok (before ++ w1 :: after) := h1
        exact Except.noConfusion h1x
      | ok sel =>
        cases hco : ext.coerce sel with
        | none =>
          rw [addition_coerce_none ext before w after d sel hscope hdt hsel hco] at h1
          have h1x : (Except.ok (before ++ w :: after) : Except Unit (List Workspace)) =
            .ok (before ++ w1 :: after) := h1
          have hw : w = w1 := okEq_middle before after w w1 h1x
          subst hw
          rw [addition_coerce_none ext before w after d sel hscope hdt hsel hco]
        | some major =>
          rw [addition_coerce_some ext before w after d sel major hscope hdt hsel hco] at h1
          rw [addition_coerce_some ext before w1 after d sel major hscope hdt hsel hco]
          have hne : identHash d ≠ identHash (companionDescriptor d major) := by
            intro hc
            exact hscope (congrArg Prod.fst hc)
          cases hscan : (before ++ w :: after).findSome?
              (suggestFor d (identHash (companionDescriptor d major))) with
          | some entries =>
            rw [reconcile_scan_some ext before w after d _ _ entries hscan] at h1
            have h1x : (Except.ok (before ++ applyEntries w entries :: after) :
                Except Unit (List Workspace)) = .ok (before ++ w1 :: after) := h1
            have hw : applyEntries w entries = w1 :=
              okEq_middle before after (applyEntries w entries) w1 h1x
            obtain ⟨hscan2, hreapply⟩ :=
              scan_propagation_idem d (identHash (companionDescriptor d major)) hne
                before w after entries hwf hscan
            rw [← hw,
              reconcile_scan_some ext before (applyEntries w entries) after d _ _ entries
                hscan2, hreapply]
          | none =>
            obtain ⟨hbef, hconsnone⟩ := findSome_append_eq_none _ before (w :: after) hscan
            have hfw : suggestFor d (identHash (companionDescriptor d major)) w = none := by
              rw [findSome_cons] at hconsnone
              cases hfw0 : suggestFor d (identHash (companionDescriptor d major)) w with
              | some x => rw [hfw0] at hconsnone; cases hconsnone
              | none => rfl
            have hafter : ∀ u ∈ after,
                suggestFor d (identHash (companionDescriptor d major)) u = none := by
              rw [findSome_cons, hfw] at hconsnone
              exact findSome_eq_none_forall _ after hconsnone
            cases hc : ext.getCandidates (companionDescriptor d major) with
            | none =>
              rw [reconcile_probe_error ext before w after d _ _ hscan hc] at h1
              have h1x : (Except.ok (before ++ w :: after) : Except Unit (List Workspace)) =
                .ok (before ++ w1 :: after) := h1
              have hw : w = w1 := okEq_middle before after w w1 h1x
              subst hw
              rw [reconcile_probe_error ext before w after d _ _ hscan hc]
            | some cands =>
              cases cands with
              | nil =>
                rw [reconcile_probe_empty ext before w after d _ _ hscan hc] at h1
                have h1x : (Except.ok (before ++ w :: after) : Except Unit (List Workspace)) =
                  .ok (before ++ w1 :: after) := h1
                have hw : w = w1 := okEq_middle before after w w1 h1x
                subst hw
                rw [reconcile_probe_empty ext before w after d _ _ hscan hc]
              | cons c cs =>
                rw [reconcile_probe_found ext before w after d _ _ c cs hscan hc] at h1
                have h1x : (Except.ok (before ++
                    setDevCompanion w (companionDescriptor d major) :: after) :
                    Except Unit (List Workspace)) = .ok (before ++ w1 :: after) := h1
                have hw : setDevCompanion w (companionDescriptor d major) = w1 :=
                  okEq_middle before after _ w1 h1x
                subst hw
                have hwdDev := setDevCompanion_get_dev w (companionDescriptor d major)
                have hmEq : hashMatches d (setDevCompanion w (companionDescriptor d major)) ↔
                    hashMatches d w := by
                  have hr := setDevCompanion_get_ne w (companionDescriptor d major) .regular
                    (identHash d) hne
                  have hdv := setDevCompanion_get_ne w (companionDescriptor d major)
                    .development (identHash d) hne
                  rw [hashMatches, hashMatches,
                    ← getKind_regular (setDevCompanion w (companionDescriptor d major)).manifest,
                    ← getKind_regular w.manifest,
                    ← getKind_development
                      (setDevCompanion w (companionDescriptor d major)).manifest,
                    ← getKind_development w.manifest, hr, hdv]
                by_cases hm : hashMatches d w
                · have hcnil : collectAtTypes w.manifest
                      (identHash (companionDescriptor d major)) = [] := by
                    rcases (suggestFor_eq_none_iff d _ w).mp hfw with hnm | hn
                    · exact absurd hm hnm
                    · exact hn
                  have hwnil := (collectAtTypes_eq_nil_iff w.manifest
                    (identHash (companionDescriptor d major))).mp hcnil
                  have hrg : mapGet
                      ((setDevCompanion w (companionDescriptor d major)).manifest.getKind
                        .regular) (identHash (companionDescriptor d major)) = none := by
                    rw [setDevCompanion_getKind_ne w (companionDescriptor d major) .regular
                      (by intro hcc; cases hcc)]
                    exact hwnil .regular
                  have hpe : mapGet
                      ((setDevCompanion w (companionDescriptor d major)).manifest.getKind
                        .peer) (identHash (companionDescriptor d major)) = none := by
                    rw [setDevCompanion_getKind_ne w (companionDescriptor d major) .peer
                      (by intro hcc; cases hcc)]
                    exact hwnil .peer
                  have hop : mapGet
                      ((setDevCompanion w (companionDescriptor d major)).manifest.getKind
                        .optionalKind) (identHash (companionDescriptor d major)) = none := by
                    rw [setDevCompanion_getKind_ne w (companionDescriptor d major) .optionalKind
                      (by intro hcc; cases hcc)]
                    exact hwnil .optionalKind
                  have hcol : collectAtTypes
                      (setDevCompanion w (companionDescriptor d major)).manifest
                      (identHash (companionDescriptor d major)) =
                      [(DepKind.development, companionDescriptor d major)] := by
                    simp only [collectAtTypes, allDependencies, List.filterMap_cons,
                      List.filterMap_nil, hrg, hwdDev, hpe, hop, Option.map_some',
                      Option.map_none']
                  have hfwd : suggestFor d (identHash (companionDescriptor d major))
                      (setDevCompanion w (companionDescriptor d major)) =
                      some [(DepKind.development, companionDescriptor d major)] := by
                    rw [suggestFor_eq_some_iff]
                    exact ⟨hmEq.mpr hm, hcol.symm, by intro hcc; cases hcc⟩
                  have hscan2 := findSome_first
                    (suggestFor d (identHash (companionDescriptor d major))) before _ after
                    _ hbef hfwd
                  rw [reconcile_scan_some ext before _ after d _ _ _ hscan2]
                  have happ : applyEntries (setDevCompanion w (companionDescriptor d major))
                      [(DepKind.development, companionDescriptor d major)] =
                      setDevCompanion w (companionDescriptor d major) := by
                    apply applyEntries_self
                    intro e he
                    rw [List.mem_singleton] at he
                    subst he
                    exact hwdDev
                  rw [happ]
                · have hfwd : suggestFor d (identHash (companionDescriptor d major))
                      (setDevCompanion w (companionDescriptor d major)) = none := by
                    rw [suggestFor_eq_none_iff]
                    left
                    intro hcc
                    exact hm (hmEq.mp hcc)
                  have hscan2 : (before ++
                      setDevCompanion w (companionDescriptor d major) :: after).findSome?
                      (suggestFor d (identHash (companionDescriptor d major))) = none := by
                    apply findSome_eq_none_of
                    intro u hu
                    rcases List.mem_append.mp hu with hu | hu
                    · exact hbef u hu
                    · rcases List.mem_cons.mp hu with rfl | hu
                      · exact hfwd
                      · exact hafter u hu
                  exact probe_step_idem ext before _ after d (companionDescriptor d major)
                    _ c cs hwdDev hscan2 hc





/-- C9 witness: after the first run adds the companion development
dependency, the second run reproduces the same workspace list. -/
theorem claim_C9_witness :
    (afterWorkspaceDependencyAddition c9Ext [] c9W1 [] c9Desc).outcome =
      .ok ([] ++ c9W1 :: []) :=
  claim_C9 c9Ext [] c9W [] c9Desc c9W1
    (by
      intro u hu
      rcases List.mem_cons.mp hu with rfl | hu
      · intro t e he
        cases t <;> exact absurd he (List.not_mem_nil e)
      · cases hu)
    rfl

end Berry
